import Mathlib

/-!
Verification of the connection-hub core of the Netcentric-Programming-Lab
repository.  Go source functions are embedded shallowly: Go strings become
`List Char`, buffered channels become a `Chan` record (capacity, buffer,
closed flag), Go maps become association lists or pointwise-updated
functions, and `time.Now()` becomes an explicit `now` argument.  A
non-blocking `select { case ch <- v: default: ... }` send succeeds exactly
when the buffer holds fewer elements than the capacity (the writer side is
frozen, matching the "at enqueue time" reading of the spec).
-/

/-- Go strings, embedded as lists of characters. -/
abbrev GoStr := List Char

/-- Literal Go string. -/
def gs (s : String) : GoStr := s.data

/-- Embeds `strings.HasPrefix` (argument order: pattern first). -/
def hasPref : GoStr → GoStr → Bool
  | [], _ => true
  | _ :: _, [] => false
  | a :: as, b :: bs => decide (a = b) && hasPref as bs

/-- Embeds `strings.TrimPrefix` (argument order: pattern first). -/
def trimPref (p s : GoStr) : GoStr :=
  if hasPref p s then s.drop p.length else s

/-- Association-list lookup (Go map read). -/
def lookupA {κ α : Type} [DecidableEq κ] : List (κ × α) → κ → Option α
  | [], _ => none
  | (k, v) :: rest, key => if k = key then some v else lookupA rest key

/-- Association-list overwrite of an existing key (Go map write). -/
def updateA {κ α : Type} [DecidableEq κ] : List (κ × α) → κ → α → List (κ × α)
  | [], _, _ => []
  | (k, w) :: rest, key, v =>
    if k = key then (key, v) :: updateA rest key v
    else (k, w) :: updateA rest key v

/-- Association-list key removal (Go `delete`). -/
def removeA {κ α : Type} [DecidableEq κ] : List (κ × α) → κ → List (κ × α)
  | [], _ => []
  | (k, w) :: rest, key =>
    if k = key then removeA rest key else (k, w) :: removeA rest key

/-- A connected client (`Client` struct shared by the WebSocket servers):
identity, username and the room it was created for.  The outbound
channel is stored separately, keyed by `cid`. -/
structure Client where
  cid : Nat
  username : GoStr
  room : GoStr
deriving DecidableEq, Repr

/-- Wire message (`Message` struct): type, room, username, text, time. -/
structure Message where
  mtype : GoStr
  room : GoStr
  username : GoStr
  text : GoStr
  time : GoStr
deriving DecidableEq, Repr

/-- Admin notification (`Notification` struct of the notification server). -/
structure Notification where
  id : GoStr
  ntype : GoStr
  title : GoStr
  message : GoStr
  timestamp : Nat
  target : GoStr
deriving DecidableEq, Repr

/-- Reply object of `/users` (`UserListMessage`). -/
structure UserListMessage where
  mtype : GoStr
  room : GoStr
  userCount : Nat
  users : List GoStr
deriving DecidableEq, Repr

/-- Reply object of `/stats` (`StatsMessage`). -/
structure StatsMessage where
  mtype : GoStr
  totalUsers : Nat
  totalRooms : Nat
  roomDetails : List (GoStr × Nat)
deriving DecidableEq, Repr

/-- Reply object of `/rooms` (`RoomsMessage`). -/
structure RoomsMessage where
  mtype : GoStr
  totalRooms : Nat
  rooms : List GoStr
deriving DecidableEq, Repr

/-- What flows over a client's outbound channel (the marshalled JSON value). -/
inductive Payload where
  | msg (m : Message)
  | notif (n : Notification)
  | userList (u : UserListMessage)
  | stats (s : StatsMessage)
  | roomList (r : RoomsMessage)
deriving DecidableEq, Repr

/-- A buffered Go channel: capacity, current buffer, closed flag. -/
structure Chan where
  cap : Nat
  buf : List Payload
  closed : Bool
deriving DecidableEq, Repr

/-- Pointwise update of the channel store. -/
def updF (f : Nat → Chan) (k : Nat) (v : Chan) : Nat → Chan :=
  fun i => if i = k then v else f i

/-- Append `p` to `ch`'s buffer. -/
def chPush (ch : Chan) (p : Payload) : Chan :=
  { ch with buf := ch.buf ++ [p] }

/-- Non-blocking send with a silent skip on a full buffer
(`select { case ch <- v: default: }` with an empty default). -/
def trySendSkip (chans : Nat → Chan) (cid : Nat) (p : Payload) : Nat → Chan :=
  let ch := chans cid
  if ch.buf.length < ch.cap then updF chans cid (chPush ch p) else chans

/-- One room-loop of the router: walk the member list and attempt a
non-blocking send to every member satisfying `cond`, skipping full
buffers.  `routeNotification`'s three branches are instances of this
(with `cond` constantly true, or a username test). -/
def sendFiltered (cond : Client → Bool) (mem : List Client)
    (chans : Nat → Chan) (p : Payload) : Nat → Chan :=
  mem.foldl (fun ch c => if cond c then trySendSkip ch c.cid p else ch) chans

/-- The rooms-loop of the router: apply `sendFiltered` to every room. -/
def sendRoomsFiltered (cond : Client → Bool)
    (rooms : List (GoStr × List Client)) (chans : Nat → Chan) (p : Payload) :
    Nat → Chan :=
  rooms.foldl (fun ch q => sendFiltered cond q.2 ch p) chans

/-- All connection ids present in a room registry. -/
def allCids (rooms : List (GoStr × List Client)) : List Nat :=
  rooms.flatMap (fun q => q.2.map Client.cid)

/-- Decimal rendering of a Go `%d` verb. -/
def gsNat (n : Nat) : GoStr := (Nat.repr n).data

namespace NotifServer

/-- The notification server's `Hub` (rooms, per-client send channels and
the bounded notification history). -/
structure NotifHub where
  rooms : List (GoStr × List Client)
  chans : Nat → Chan
  notificationHistory : List Notification

/-- Embeds `Hub.addToHistory`: append, then keep only the last 50 entries
(`h.notificationHistory[len-50:]`). -/
def addToHistory (hist : List Notification) (n : Notification) :
    List Notification :=
  if 50 < (hist ++ [n]).length then
    (hist ++ [n]).drop ((hist ++ [n]).length - 50)
  else hist ++ [n]

/-- Embeds `Hub.shouldReceiveNotification`: the target filter used for history replay. -/
def shouldReceiveNotification (client : Client) (notif : Notification) : Bool :=
  if notif.target = gs "all" then true
  else if hasPref (gs "room:") notif.target then
    decide (client.room = trimPref (gs "room:") notif.target)
  else if hasPref (gs "user:") notif.target then
    decide (client.username = trimPref (gs "user:") notif.target)
  else false

/-- Embeds `Hub.sendNotificationHistory`: replay each stored notification passing
the filter into the new client's channel, skipping if the channel is full. -/
def sendNotificationHistory (h : NotifHub) (client : Client) : NotifHub :=
  { h with chans :=
      (h.notificationHistory.foldl
        (fun ch n =>
          if shouldReceiveNotification client n then
            trySendSkip ch client.cid (Payload.notif n)
          else ch)
        h.chans) }

/-- Embeds `Hub.routeNotification`: route by target; every send is a non-blocking
enqueue that silently skips a full channel (no eviction on this path). -/
def routeNotification (h : NotifHub) (notif : Notification) : NotifHub :=
  if notif.target = gs "all" then
    { h with chans :=
        sendRoomsFiltered (fun _ => true) h.rooms h.chans (Payload.notif notif) }
  else if hasPref (gs "room:") notif.target then
    match lookupA h.rooms (trimPref (gs "room:") notif.target) with
    | none => h
    | some mem =>
      { h with chans :=
          sendFiltered (fun _ => true) mem h.chans (Payload.notif notif) }
  else if hasPref (gs "user:") notif.target then
    { h with chans :=
        (sendRoomsFiltered
          (fun c => decide (c.username = trimPref (gs "user:") notif.target))
          h.rooms h.chans (Payload.notif notif)) }
  else h

end NotifServer

namespace ChatStats

/-- The Lab8 Task4 `Hub`: room registry and the per-client channels.
`evict` is a ghost counter incremented exactly when a slow consumer is
evicted (`close(client.Send); delete(room.Clients, client)`); it has no
influence on behaviour and only lets eviction-free runs be described. -/
structure Hub where
  rooms : List (GoStr × List Client)
  chans : Nat → Chan
  evict : Nat

/-- Member loop of `Hub.broadcastToRoom`: non-blocking send to each member;
on a full buffer the member's channel is closed and the member deleted
from the room.  Returns surviving members, channels, eviction count. -/
def sendAll : List Client → (Nat → Chan) → Payload →
    List Client × (Nat → Chan) × Nat
  | [], chans, _ => ([], chans, 0)
  | c :: rest, chans, p =>
    if (chans c.cid).buf.length < (chans c.cid).cap then
      let r := sendAll rest (updF chans c.cid (chPush (chans c.cid) p)) p
      (c :: r.1, r.2.1, r.2.2)
    else
      let r := sendAll rest (updF chans c.cid { chans c.cid with closed := true }) p
      (r.1, r.2.1, r.2.2 + 1)

/-- Embeds `Hub.broadcastToRoom`: look the room up; absent room is a no-op. -/
def broadcastToRoom (h : Hub) (roomName : GoStr) (msg : Message) : Hub :=
  match lookupA h.rooms roomName with
  | none => h
  | some mem =>
    let r := sendAll mem h.chans (Payload.msg msg)
    { rooms := updateA h.rooms roomName r.1,
      chans := r.2.1,
      evict := h.evict + r.2.2 }

/-- The "Users online: %d" system message of `sendUserCountUpdate`. -/
def usersOnlineMsg (roomName : GoStr) (k : Nat) (now : GoStr) : Message :=
  { mtype := gs "system", room := roomName, username := [],
    text := gs "Users online: " ++ gsNat k, time := now }

/-- Embeds `Hub.sendUserCountUpdate`: broadcast the current member count. -/
def sendUserCountUpdate (h : Hub) (roomName : GoStr) (now : GoStr) : Hub :=
  match lookupA h.rooms roomName with
  | none => h
  | some mem =>
    broadcastToRoom h roomName (usersOnlineMsg roomName mem.length now)

/-- The "joined the room" system message of `addClientToRoom`. -/
def joinedMsg (c : Client) (now : GoStr) : Message :=
  { mtype := gs "system", room := c.room, username := c.username,
    text := c.username ++ gs " joined the room", time := now }

/-- The "left the room" system message of `removeClientFromRoom`. -/
def leftMsg (c : Client) (now : GoStr) : Message :=
  { mtype := gs "system", room := c.room, username := c.username,
    text := c.username ++ gs " left the room", time := now }

/-- Embeds `Hub.addClientToRoom`: create the room lazily, add the client
(map insert, hence idempotent), then broadcast the join message and the
user-count update. -/
def addClientToRoom (h : Hub) (client : Client) (now : GoStr) : Hub :=
  let h1 :=
    match lookupA h.rooms client.room with
    | none => { h with rooms := (client.room, [client]) :: h.rooms }
    | some mem =>
      { h with rooms :=
          (updateA h.rooms client.room
            (if client ∈ mem then mem else mem ++ [client])) }
  let h2 := broadcastToRoom h1 client.room (joinedMsg client now)
  sendUserCountUpdate h2 client.room now

/-- Embeds `Hub.removeClientFromRoom`: early return when the client's room is
absent; otherwise delete the client and close its channel (only if it is
still a member), broadcast the leave message and the user-count update to
whoever remains, and delete the room when the member count captured right
after the deletion was zero. -/
def removeClientFromRoom (h : Hub) (client : Client) (now : GoStr) : Hub :=
  match lookupA h.rooms client.room with
  | none => h
  | some mem =>
    let mem2 := if client ∈ mem then mem.erase client else mem
    let chans2 :=
      if client ∈ mem then
        updF h.chans client.cid { h.chans client.cid with closed := true }
      else h.chans
    let clientCount := mem2.length
    let h1 : Hub :=
      { rooms := updateA h.rooms client.room mem2,
        chans := chans2, evict := h.evict }
    let h2 := broadcastToRoom h1 client.room (leftMsg client now)
    let h3 := sendUserCountUpdate h2 client.room now
    if clientCount = 0 then { h3 with rooms := removeA h3.rooms client.room }
    else h3

/-- The three kinds of command the hub's control loop serializes
(`h.register`, `h.unregister`, and a room-targeted publish). -/
inductive Op where
  | register (c : Client) (now : GoStr)
  | unregister (c : Client) (now : GoStr)
  | publish (room : GoStr) (m : Message)

/-- One iteration of `Hub.run`. -/
def applyOp (h : Hub) : Op → Hub
  | .register c now => addClientToRoom h c now
  | .unregister c now => removeClientFromRoom h c now
  | .publish room m => broadcastToRoom h room m

def applyOps (h : Hub) (ops : List Op) : Hub := ops.foldl applyOp h

/-- Member count of a room; 0 when the room is absent from the registry. -/
def roomCount (h : Hub) (r : GoStr) : Nat :=
  match lookupA h.rooms r with
  | none => 0
  | some mem => mem.length

/-- Whether a room name is present in the registry. -/
def roomPresent (h : Hub) (r : GoStr) : Bool := (lookupA h.rooms r).isSome

/-- Every room present in the registry has at least one member. -/
def goodRooms (h : Hub) : Prop :=
  ∀ r mem, lookupA h.rooms r = some mem → mem ≠ []

/-- Client `c` is currently a member of its room. -/
def memberOf (h : Hub) (c : Client) : Prop :=
  ∃ mem, lookupA h.rooms c.room = some mem ∧ c ∈ mem

/-- Preconditions of the N-joins / M-leaves property: a register never
re-registers a current member, an unregister targets a current member. -/
def ValidStep (h : Hub) : Op → Prop
  | .register c _ => ¬ memberOf h c
  | .unregister c _ => memberOf h c
  | .publish _ _ => True

def ValidSeq : Hub → List Op → Prop
  | _, [] => True
  | h, op :: rest => ValidStep h op ∧ ValidSeq (applyOp h op) rest

/-- Number of register operations targeting room `r`. -/
def regCount (r : GoStr) : List Op → Nat
  | [] => 0
  | Op.register c _ :: rest => (if c.room = r then 1 else 0) + regCount r rest
  | Op.unregister _ _ :: rest => regCount r rest
  | Op.publish _ _ :: rest => regCount r rest

/-- Number of unregister operations targeting room `r`. -/
def unregCount (r : GoStr) : List Op → Nat
  | [] => 0
  | Op.register _ _ :: rest => unregCount r rest
  | Op.unregister c _ :: rest => (if c.room = r then 1 else 0) + unregCount r rest
  | Op.publish _ _ :: rest => unregCount r rest

end ChatStats

/-- ASCII space test used by `strings.TrimSpace` on the repo's inputs. -/
def isSpaceCh (ch : Char) : Bool :=
  ch = ' ' || ch = '\t' || ch = '\n' || ch = '\r'

/-- Embeds `strings.TrimSpace` (ASCII subset). -/
def goTrimSpace (s : GoStr) : GoStr :=
  ((s.dropWhile isSpaceCh).reverse.dropWhile isSpaceCh).reverse

/-- Embeds `strings.ToLower` on one character (ASCII subset). -/
def asciiLower (ch : Char) : Char :=
  if 'A' ≤ ch ∧ ch ≤ 'Z' then Char.ofNat (ch.toNat + 32) else ch

def goToLower (s : GoStr) : GoStr := s.map asciiLower

namespace BroadcastChat

/-- The broadcast server's `Hub` (part of the plain broadcast variant):
registered clients (by connection id) and their channels. -/
structure BHub where
  clients : List Nat
  chans : Nat → Chan

/-- The `h.broadcast` case of `Hub.run`: non-blocking send to every
registered client; a full queue gets the channel closed and the client
deleted from the registry. -/
def bSend : List Nat → (Nat → Chan) → Payload → List Nat × (Nat → Chan)
  | [], chans, _ => ([], chans)
  | cid :: rest, chans, p =>
    if (chans cid).buf.length < (chans cid).cap then
      let r := bSend rest (updF chans cid (chPush (chans cid) p)) p
      (cid :: r.1, r.2)
    else
      let r := bSend rest (updF chans cid { chans cid with closed := true }) p
      (r.1, r.2)

def runBroadcast (s : BHub) (p : Payload) : BHub :=
  { clients := (bSend s.clients s.chans p).1,
    chans := (bSend s.clients s.chans p).2 }

/-- The `h.register` case of `Hub.run` (map insert). -/
def runRegister (s : BHub) (cid : Nat) : BHub :=
  if cid ∈ s.clients then s else { s with clients := s.clients ++ [cid] }

/-- The `h.unregister` case of `Hub.run`: delete and close only when the
client is still registered. -/
def runUnregister (s : BHub) (cid : Nat) : BHub :=
  if cid ∈ s.clients then
    { clients := s.clients.erase cid,
      chans := updF s.chans cid { s.chans cid with closed := true } }
  else s

end BroadcastChat

/-- Generic map upsert (`m[k] = v`). -/
def setA {κ α : Type} [DecidableEq κ] (l : List (κ × α)) (k : κ) (v : α) :
    List (κ × α) :=
  match lookupA l k with
  | some _ => updateA l k v
  | none => (k, v) :: l

namespace HybridChat

/-- Presence record (`UserStatus`) of the hybrid chat server. -/
structure UserStatus where
  username : GoStr
  status : GoStr
  lastSeen : Nat
deriving DecidableEq, Repr

/-- Chat `Message` of the hybrid chat server. -/
structure HMessage where
  username : GoStr
  content : GoStr
  timestamp : Nat
deriving DecidableEq, Repr

/-- State of `HybridChatServer`: TCP clients (conn → username), the bounded
message history, the presence store and the UDP client addresses. -/
structure HybridChatServer where
  tcpClients : List (Nat × GoStr)
  messageHistory : List HMessage
  userStatuses : List (GoStr × UserStatus)
  clientAddrs : List (GoStr × Nat)
deriving DecidableEq, Repr

/-- Embeds `addMessage`: append and keep only the 100 most recent
(`s.messageHistory[1:]` when the bound is exceeded). -/
def addMessage (s : HybridChatServer) (username content : GoStr) (now : Nat) :
    HybridChatServer :=
  { s with messageHistory :=
      (if 100 < (s.messageHistory ++ [(⟨username, content, now⟩ : HMessage)]).length then
        (s.messageHistory ++ [(⟨username, content, now⟩ : HMessage)]).drop 1
      else s.messageHistory ++ [(⟨username, content, now⟩ : HMessage)]) }

/-- Embeds `updateStatus`: upsert the username's record with the given status and
the current timestamp. -/
def updateStatus (s : HybridChatServer) (username status : GoStr) (now : Nat) :
    HybridChatServer :=
  { s with userStatuses :=
      (setA s.userStatuses username ⟨username, status, now⟩) }

/-- The mutating operations of `hybrid_chat_server.go`, in one type:
`addMessage`, `updateStatus`, the UDP-address save, and the TCP client
save/delete of `handleTCPClient`. -/
inductive SOp where
  | addMessage (username content : GoStr) (now : Nat)
  | updateStatus (username status : GoStr) (now : Nat)
  | saveClientAddr (username : GoStr) (addr : Nat)
  | addTCPClient (conn : Nat) (username : GoStr)
  | removeTCPClient (conn : Nat)

def applySOp (s : HybridChatServer) : SOp → HybridChatServer
  | .addMessage u c now => addMessage s u c now
  | .updateStatus u st now => updateStatus s u st now
  | .saveClientAddr u a => { s with clientAddrs := (setA s.clientAddrs u a) }
  | .addTCPClient conn u => { s with tcpClients := (setA s.tcpClients conn u) }
  | .removeTCPClient conn => { s with tcpClients := (removeA s.tcpClients conn) }

/-- Formatted line sent by `broadcastMessage` (the timestamp is
rendered from the abstract clock). -/
def formatMessage (m : HMessage) : GoStr :=
  gs "[" ++ gsNat m.timestamp ++ gs "] " ++ m.username ++ gs ": " ++
    m.content ++ gs "\n"

/-- One iteration of the read loop of `handleTCPClient`: trim the line;
ignore empty lines; ignore `HISTORY:`-prefixed requests (the server sends
no reply to them); otherwise store the message and broadcast the formatted
line to every TCP client.  Returns the new state and the list of
(connection, line) writes performed. -/
def handleLine (s : HybridChatServer) (username line : GoStr) (now : Nat) :
    HybridChatServer × List (Nat × GoStr) :=
  if goTrimSpace line = [] then (s, [])
  else if hasPref (gs "HISTORY:") (goTrimSpace line) then (s, [])
  else
    (addMessage s username (goTrimSpace line) now,
     s.tcpClients.map
       (fun q => (q.1, formatMessage ⟨username, goTrimSpace line, now⟩)))

end HybridChat

namespace ChatStats

/-- Embeds `Hub.handleCommand`: normalize the command, reply to the issuing
client with the typed object for `/users`, `/stats`, `/rooms`, and with an
"Unknown command" system `Message` otherwise.  The returned list holds the
payloads written to the issuing client's channel. -/
def handleCommand (h : Hub) (client : Client) (cmd : GoStr) (now : GoStr) :
    List Payload :=
  if goToLower (goTrimSpace cmd) = gs "/users" then
    match lookupA h.rooms client.room with
    | none => []
    | some mem =>
      [Payload.userList
        { mtype := gs "user_list", room := client.room,
          userCount := (mem.map Client.username).length,
          users := mem.map Client.username }]
  else if goToLower (goTrimSpace cmd) = gs "/stats" then
    [Payload.stats
      { mtype := gs "stats",
        totalUsers := (h.rooms.map (fun q => q.2.length)).sum,
        totalRooms := h.rooms.length,
        roomDetails := h.rooms.map (fun q => (q.1, q.2.length)) }]
  else if goToLower (goTrimSpace cmd) = gs "/rooms" then
    [Payload.roomList
      { mtype := gs "rooms", totalRooms := (h.rooms.map Prod.fst).length,
        rooms := h.rooms.map Prod.fst }]
  else
    [Payload.msg
      { mtype := gs "system", room := client.room, username := [],
        text := gs "Unknown command: " ++ goToLower (goTrimSpace cmd) ++
          gs ". Available: /users, /stats, /rooms",
        time := now }]

end ChatStats

def c6ns : List Notification :=
  (List.range 51).map (fun i => ⟨gs "n", gs "info", [], [], i, gs "all"⟩)

def c8hub : NotifServer.NotifHub :=
  { rooms := [(gs "general", [⟨11, gs "alice", gs "general"⟩])],
    chans := fun _ => ⟨256, [], false⟩,
    notificationHistory :=
      [⟨gs "n1", gs "info", [], [], 1, gs "all"⟩,
       ⟨gs "n2", gs "info", [], [], 2, gs "room:general"⟩,
       ⟨gs "n3", gs "info", [], [], 3, gs "room:other"⟩,
       ⟨gs "n4", gs "info", [], [], 4, gs "user:alice"⟩,
       ⟨gs "n5", gs "info", [], [], 5, gs "user:bob"⟩,
       ⟨gs "n6", gs "info", [], [], 6, gs "everyone"⟩] }

def c8client : Client := ⟨11, gs "alice", gs "general"⟩

def c9state : HybridChat.HybridChatServer :=
  { tcpClients := [(1, gs "alice")],
    messageHistory := [],
    userStatuses := [(gs "bob", ⟨gs "bob", gs "away", 3⟩)],
    clientAddrs := [] }

def c10state : HybridChat.HybridChatServer :=
  { tcpClients := [(1, gs "nhan")],
    messageHistory := [⟨gs "nhan", gs "hello", 1⟩],
    userStatuses := [],
    clientAddrs := [] }

def c10client : Client := ⟨9, gs "nhan", gs "general"⟩

def c10hub : ChatStats.Hub :=
  { rooms := [(gs "general", [c10client])],
    chans := fun _ => ⟨256, [], false⟩,
    evict := 0 }

def c1prefill : Notification :=
  ⟨gs "n0", gs "info", [], [], 0, gs "all"⟩

def c1notif : Notification :=
  ⟨gs "n1", gs "info", gs "Maintenance", gs "tonight", 5, gs "room:general"⟩

def c1hub : NotifServer.NotifHub :=
  { rooms := [(gs "general", [⟨3, gs "dave", gs "general"⟩]),
              (gs "other", [⟨4, gs "erin", gs "other"⟩])],
    chans := fun _ => ⟨1, [Payload.notif c1prefill], false⟩,
    notificationHistory := [] }

def c1whub : NotifServer.NotifHub :=
  { rooms := [(gs "general", [⟨3, gs "dave", gs "general"⟩]),
              (gs "other", [⟨4, gs "erin", gs "other"⟩])],
    chans := fun _ => ⟨8, [], false⟩,
    notificationHistory := [] }

def c1ghub : ChatStats.Hub :=
  { rooms := [(gs "general", [⟨3, gs "dave", gs "general"⟩])],
    chans := fun _ => ⟨8, [], false⟩,
    evict := 0 }

def c1chat : Message :=
  ⟨gs "chat", gs "general", gs "dave", gs "hi", gs "00:00:01"⟩

def c7hub : NotifServer.NotifHub :=
  { rooms := [(gs "general", [⟨3, gs "dave", gs "general"⟩]),
              (gs "other", [⟨4, gs "erin", gs "other"⟩])],
    chans := fun _ => ⟨8, [], false⟩,
    notificationHistory := [] }

def c7notif : Notification :=
  ⟨gs "n7", gs "info", [], [], 9, gs "user:erin"⟩

def c2prefill : Notification := ⟨gs "p", gs "info", [], [], 0, gs "all"⟩

def c2notif : Notification := ⟨gs "n2", gs "warning", [], [], 6, gs "all"⟩

def c2hub : NotifServer.NotifHub :=
  { rooms := [(gs "ops", [⟨7, gs "carol", gs "ops"⟩])],
    chans := fun _ => ⟨1, [Payload.notif c2prefill], false⟩,
    notificationHistory := [] }

def c2bhub : BroadcastChat.BHub :=
  { clients := [1, 2],
    chans := fun cid =>
      if cid = 1 then ⟨1, [Payload.notif c2prefill], false⟩
      else ⟨4, [], false⟩ }

def c2gpay : Payload := Payload.notif c2notif

def c3client : Client := ⟨1, gs "bob", gs "r"⟩

def c3hub0 : ChatStats.Hub :=
  { rooms := [], chans := fun _ => ⟨2, [], false⟩, evict := 0 }

def c3chat : Message := ⟨gs "chat", gs "r", gs "bob", gs "hi", gs "00:00:02"⟩

def c3ops : List ChatStats.Op :=
  [ChatStats.Op.register c3client (gs "00:00:01"),
   ChatStats.Op.publish (gs "r") c3chat]

def c3whub0 : ChatStats.Hub :=
  { rooms := [], chans := fun _ => ⟨16, [], false⟩, evict := 0 }

def c4client : Client := ⟨1, gs "alice", gs "r"⟩

def c4hub0 : ChatStats.Hub :=
  { rooms := [], chans := fun _ => ⟨1, [], false⟩, evict := 0 }

def c4ops : List ChatStats.Op :=
  [ChatStats.Op.register c4client (gs "00:00:01")]

def c4wa : Client := ⟨1, gs "alice", gs "r"⟩

def c4wb : Client := ⟨2, gs "bob", gs "r"⟩

def c4whub0 : ChatStats.Hub :=
  { rooms := [], chans := fun _ => ⟨64, [], false⟩, evict := 0 }

def c4wops : List ChatStats.Op :=
  [ChatStats.Op.register c4wa (gs "t1"),
   ChatStats.Op.register c4wb (gs "t2"),
   ChatStats.Op.unregister c4wa (gs "t3")]

def c5a : Client := ⟨1, gs "alice", gs "r"⟩

def c5b : Client := ⟨2, gs "bob", gs "r"⟩

def c5hub : ChatStats.Hub :=
  { rooms := [(gs "r", [c5a, c5b])],
    chans := fun _ => ⟨10, [], false⟩, evict := 0 }

def c5whub1 : ChatStats.Hub :=
  ChatStats.removeClientFromRoom c5hub c5a (gs "t")

def c5nohub : ChatStats.Hub :=
  { rooms := [], chans := fun _ => ⟨10, [], false⟩, evict := 0 }

def c5bhub : BroadcastChat.BHub :=
  { clients := [2], chans := fun _ => ⟨10, [], false⟩ }

theorem hasPref_append (p s : GoStr) : hasPref p (p ++ s) = true := by
  induction p with
  | nil => rfl
  | cons a as ih => simp [hasPref, ih]

theorem hasPref_iff_exists (p s : GoStr) :
    hasPref p s = true ↔ ∃ t, s = p ++ t := by
  induction p generalizing s with
  | nil => simp [hasPref]
  | cons a as ih =>
    cases s with
    | nil => simp [hasPref]
    | cons b bs =>
      simp only [hasPref, Bool.and_eq_true, decide_eq_true_eq, ih]
      constructor
      · rintro ⟨rfl, t, rfl⟩; exact ⟨t, rfl⟩
      · rintro ⟨t, ht⟩
        cases ht
        exact ⟨rfl, t, rfl⟩

theorem trimPref_append (p s : GoStr) : trimPref p (p ++ s) = s := by
  simp [trimPref, hasPref_append, List.drop_left]

theorem lookupA_updateA_self {κ α : Type} [DecidableEq κ]
    (l : List (κ × α)) (key : κ) (v w : α) (h : lookupA l key = some w) :
    lookupA (updateA l key v) key = some v := by
  induction l with
  | nil => simp [lookupA] at h
  | cons p rest ih =>
    obtain ⟨k1, v1⟩ := p
    by_cases hk : k1 = key
    · simp [lookupA, updateA, hk]
    · simp only [lookupA, hk, if_false] at h
      simp [lookupA, updateA, hk, ih h]

theorem lookupA_updateA_ne {κ α : Type} [DecidableEq κ]
    (l : List (κ × α)) (key k : κ) (v : α) (h : k ≠ key) :
    lookupA (updateA l key v) k = lookupA l k := by
  induction l with
  | nil => rfl
  | cons p rest ih =>
    obtain ⟨k1, v1⟩ := p
    by_cases hk : k1 = key
    · subst hk
      simp [lookupA, updateA, Ne.symm h, ih]
    · by_cases hpk : k1 = k
      · simp [lookupA, updateA, hk, hpk, h]
      · simp [lookupA, updateA, hk, hpk, ih]

theorem lookupA_removeA_self {κ α : Type} [DecidableEq κ]
    (l : List (κ × α)) (key : κ) :
    lookupA (removeA l key) key = none := by
  induction l with
  | nil => rfl
  | cons p rest ih =>
    obtain ⟨k1, v1⟩ := p
    by_cases hk : k1 = key
    · simp [removeA, hk, ih]
    · simp [removeA, lookupA, hk, ih]

theorem lookupA_removeA_ne {κ α : Type} [DecidableEq κ]
    (l : List (κ × α)) (key k : κ) (h : k ≠ key) :
    lookupA (removeA l key) k = lookupA l k := by
  induction l with
  | nil => rfl
  | cons p rest ih =>
    obtain ⟨k1, v1⟩ := p
    by_cases hk : k1 = key
    · subst hk
      simp [removeA, lookupA, Ne.symm h, ih]
    · by_cases hpk : k1 = k
      · simp [removeA, lookupA, hk, hpk, h]
      · simp [removeA, lookupA, hk, hpk, ih]

theorem updF_self (f : Nat → Chan) (k : Nat) (v : Chan) : updF f k v k = v := by
  simp [updF]

theorem updF_ne (f : Nat → Chan) (k i : Nat) (v : Chan) (h : i ≠ k) :
    updF f k v i = f i := by
  simp [updF, h]

theorem sendFiltered_cons (cond : Client → Bool) (a : Client)
    (rest : List Client) (chans : Nat → Chan) (p : Payload) :
    sendFiltered cond (a :: rest) chans p =
      sendFiltered cond rest
        (if cond a = true then trySendSkip chans a.cid p else chans) p := rfl

theorem trySendSkip_other (chans : Nat → Chan) (k : Nat) (p : Payload)
    (cid : Nat) (h : k ≠ cid) : trySendSkip chans k p cid = chans cid := by
  unfold trySendSkip
  by_cases hlt : (chans k).buf.length < (chans k).cap
  · simp only [hlt, if_pos]
    exact updF_ne _ _ _ _ (Ne.symm h)
  · simp [hlt]

theorem sendFiltered_frame (cond : Client → Bool) (mem : List Client)
    (chans : Nat → Chan) (p : Payload) (cid : Nat)
    (h : ∀ m ∈ mem, cond m = true → m.cid ≠ cid) :
    sendFiltered cond mem chans p cid = chans cid := by
  induction mem generalizing chans with
  | nil => rfl
  | cons c rest ih =>
    rw [sendFiltered_cons]
    by_cases hc : cond c = true
    · rw [if_pos hc]
      rw [ih _ (fun m hm hcm => h m (by simp [hm]) hcm)]
      exact trySendSkip_other chans c.cid p cid (h c (by simp) hc)
    · rw [if_neg hc]
      exact ih _ (fun m hm hcm => h m (by simp [hm]) hcm)

theorem sendFiltered_delivers (cond : Client → Bool) (mem : List Client)
    (chans : Nat → Chan) (p : Payload) (c : Client)
    (hnd : (mem.map Client.cid).Nodup) (hc : c ∈ mem) (hcond : cond c = true)
    (hspace : (chans c.cid).buf.length < (chans c.cid).cap) :
    sendFiltered cond mem chans p c.cid = chPush (chans c.cid) p := by
  induction mem generalizing chans with
  | nil => cases hc
  | cons a rest ih =>
    simp only [List.map_cons, List.nodup_cons] at hnd
    rw [sendFiltered_cons]
    rcases List.mem_cons.mp hc with rfl | hcr
    · rw [if_pos hcond]
      have hstep : trySendSkip chans c.cid p =
          updF chans c.cid (chPush (chans c.cid) p) := by
        unfold trySendSkip
        simp [hspace]
      have hframe : ∀ m ∈ rest, cond m = true → m.cid ≠ c.cid := by
        intro m hm _ hEq
        exact hnd.1 (hEq ▸ List.mem_map_of_mem Client.cid hm)
      rw [hstep, sendFiltered_frame cond rest _ p c.cid hframe, updF_self]
    · have hne : a.cid ≠ c.cid := by
        intro hEq
        exact hnd.1 (hEq ▸ List.mem_map_of_mem Client.cid hcr)
      have hkeep :
          (if cond a = true then trySendSkip chans a.cid p else chans) c.cid =
            chans c.cid := by
        by_cases hca : cond a = true
        · rw [if_pos hca]
          exact trySendSkip_other chans a.cid p c.cid hne
        · rw [if_neg hca]
      have := ih (if cond a = true then trySendSkip chans a.cid p else chans)
        hnd.2 hcr (by rw [hkeep]; exact hspace)
      rw [this, hkeep]

theorem sendFiltered_skips (cond : Client → Bool) (mem : List Client)
    (chans : Nat → Chan) (p : Payload) (c : Client)
    (hnd : (mem.map Client.cid).Nodup) (hc : c ∈ mem)
    (hfull : ¬ (chans c.cid).buf.length < (chans c.cid).cap) :
    sendFiltered cond mem chans p c.cid = chans c.cid := by
  induction mem generalizing chans with
  | nil => cases hc
  | cons a rest ih =>
    simp only [List.map_cons, List.nodup_cons] at hnd
    rw [sendFiltered_cons]
    rcases List.mem_cons.mp hc with rfl | hcr
    · have hstep :
          (if cond c = true then trySendSkip chans c.cid p else chans) = chans := by
        by_cases hca : cond c = true
        · unfold trySendSkip
          simp [hca, hfull]
        · simp [hca]
      rw [hstep]
      have hframe : ∀ m ∈ rest, cond m = true → m.cid ≠ c.cid := by
        intro m hm _ hEq
        exact hnd.1 (hEq ▸ List.mem_map_of_mem Client.cid hm)
      exact sendFiltered_frame cond rest chans p c.cid hframe
    · have hne : a.cid ≠ c.cid := by
        intro hEq
        exact hnd.1 (hEq ▸ List.mem_map_of_mem Client.cid hcr)
      have hkeep :
          (if cond a = true then trySendSkip chans a.cid p else chans) c.cid =
            chans c.cid := by
        by_cases hca : cond a = true
        · rw [if_pos hca]
          exact trySendSkip_other chans a.cid p c.cid hne
        · rw [if_neg hca]
      have := ih (if cond a = true then trySendSkip chans a.cid p else chans)
        hnd.2 hcr (by rw [hkeep]; exact hfull)
      rw [this, hkeep]

theorem mem_allCids (rooms : List (GoStr × List Client)) (nm : GoStr)
    (mem : List Client) (c : Client) (hq : (nm, mem) ∈ rooms) (hc : c ∈ mem) :
    c.cid ∈ allCids rooms := by
  unfold allCids
  exact List.mem_flatMap.mpr ⟨(nm, mem), hq, List.mem_map_of_mem Client.cid hc⟩

theorem sendRoomsFiltered_cons (cond : Client → Bool)
    (q : GoStr × List Client) (rest : List (GoStr × List Client))
    (chans : Nat → Chan) (p : Payload) :
    sendRoomsFiltered cond (q :: rest) chans p =
      sendRoomsFiltered cond rest (sendFiltered cond q.2 chans p) p := rfl

theorem sendRoomsFiltered_frame (cond : Client → Bool)
    (rooms : List (GoStr × List Client)) (chans : Nat → Chan) (p : Payload)
    (cid : Nat) (h : ∀ q ∈ rooms, ∀ m ∈ q.2, cond m = true → m.cid ≠ cid) :
    sendRoomsFiltered cond rooms chans p cid = chans cid := by
  induction rooms generalizing chans with
  | nil => rfl
  | cons q rest ih =>
    rw [sendRoomsFiltered_cons]
    rw [ih _ (fun r hr => h r (by simp [hr]))]
    exact sendFiltered_frame cond q.2 chans p cid (h q (by simp))

theorem nodup_allCids_cons (q : GoStr × List Client)
    (rest : List (GoStr × List Client)) (h : (allCids (q :: rest)).Nodup) :
    (q.2.map Client.cid).Nodup ∧ (allCids rest).Nodup ∧
      (q.2.map Client.cid).Disjoint (allCids rest) := by
  unfold allCids at h
  rw [List.flatMap_cons] at h
  exact ⟨h.of_append_left, h.of_append_right, List.disjoint_of_nodup_append h⟩

theorem sendRoomsFiltered_delivers (cond : Client → Bool)
    (rooms : List (GoStr × List Client)) (chans : Nat → Chan) (p : Payload)
    (nm : GoStr) (mem : List Client) (c : Client)
    (hnd : (allCids rooms).Nodup) (hq : (nm, mem) ∈ rooms) (hc : c ∈ mem)
    (hcond : cond c = true)
    (hspace : (chans c.cid).buf.length < (chans c.cid).cap) :
    sendRoomsFiltered cond rooms chans p c.cid = chPush (chans c.cid) p := by
  induction rooms generalizing chans with
  | nil => cases hq
  | cons q rest ih =>
    obtain ⟨hnd1, hnd2, hdisj⟩ := nodup_allCids_cons q rest hnd
    rw [sendRoomsFiltered_cons]
    rcases List.mem_cons.mp hq with rfl | hqr
    · have hdel := sendFiltered_delivers cond mem chans p c hnd1 hc hcond hspace
      have hframe : ∀ r ∈ rest, ∀ m ∈ r.2, cond m = true → m.cid ≠ c.cid := by
        intro r hr m hm _ hEq
        exact hdisj (hEq ▸ List.mem_map_of_mem Client.cid hc)
          (mem_allCids rest r.1 r.2 m hr hm)
      rw [sendRoomsFiltered_frame cond rest _ p c.cid hframe, hdel]
    · have hcmem : c.cid ∈ allCids rest := mem_allCids rest nm mem c hqr hc
      have hframe1 : ∀ m ∈ q.2, cond m = true → m.cid ≠ c.cid := by
        intro m hm _ hEq
        exact hdisj (hEq ▸ List.mem_map_of_mem Client.cid hm) hcmem
      have hkeep := sendFiltered_frame cond q.2 chans p c.cid hframe1
      have := ih (sendFiltered cond q.2 chans p) hnd2 hqr
        (by rw [hkeep]; exact hspace)
      rw [this, hkeep]

theorem sendRoomsFiltered_skips (cond : Client → Bool)
    (rooms : List (GoStr × List Client)) (chans : Nat → Chan) (p : Payload)
    (nm : GoStr) (mem : List Client) (c : Client)
    (hnd : (allCids rooms).Nodup) (hq : (nm, mem) ∈ rooms) (hc : c ∈ mem)
    (hfull : ¬ (chans c.cid).buf.length < (chans c.cid).cap) :
    sendRoomsFiltered cond rooms chans p c.cid = chans c.cid := by
  induction rooms generalizing chans with
  | nil => cases hq
  | cons q rest ih =>
    obtain ⟨hnd1, hnd2, hdisj⟩ := nodup_allCids_cons q rest hnd
    rw [sendRoomsFiltered_cons]
    rcases List.mem_cons.mp hq with rfl | hqr
    · have hskip := sendFiltered_skips cond mem chans p c hnd1 hc hfull
      have hframe : ∀ r ∈ rest, ∀ m ∈ r.2, cond m = true → m.cid ≠ c.cid := by
        intro r hr m hm _ hEq
        exact hdisj (hEq ▸ List.mem_map_of_mem Client.cid hc)
          (mem_allCids rest r.1 r.2 m hr hm)
      rw [sendRoomsFiltered_frame cond rest _ p c.cid hframe, hskip]
    · have hcmem : c.cid ∈ allCids rest := mem_allCids rest nm mem c hqr hc
      have hframe1 : ∀ m ∈ q.2, cond m = true → m.cid ≠ c.cid := by
        intro m hm _ hEq
        exact hdisj (hEq ▸ List.mem_map_of_mem Client.cid hm) hcmem
      have hkeep := sendFiltered_frame cond q.2 chans p c.cid hframe1
      have := ih (sendFiltered cond q.2 chans p) hnd2 hqr
        (by rw [hkeep]; exact hfull)
      rw [this, hkeep]

namespace NotifServer

theorem routeNotification_rooms (h : NotifHub) (notif : Notification) :
    (routeNotification h notif).rooms = h.rooms := by
  unfold routeNotification
  by_cases h1 : notif.target = gs "all"
  · simp [h1]
  · rw [if_neg h1]
    by_cases h2 : hasPref (gs "room:") notif.target = true
    · rw [if_pos h2]
      cases hl : lookupA h.rooms (trimPref (gs "room:") notif.target) <;> simp
    · rw [if_neg h2]
      by_cases h3 : hasPref (gs "user:") notif.target = true
      · simp [h3]
      · simp [h3]

theorem routeNotification_history (h : NotifHub) (notif : Notification) :
    (routeNotification h notif).notificationHistory = h.notificationHistory := by
  unfold routeNotification
  by_cases h1 : notif.target = gs "all"
  · simp [h1]
  · rw [if_neg h1]
    by_cases h2 : hasPref (gs "room:") notif.target = true
    · rw [if_pos h2]
      cases hl : lookupA h.rooms (trimPref (gs "room:") notif.target) <;> simp
    · rw [if_neg h2]
      by_cases h3 : hasPref (gs "user:") notif.target = true
      · simp [h3]
      · simp [h3]

end NotifServer

theorem room_ne_all (r : GoStr) : gs "room:" ++ r ≠ gs "all" := by
  intro h
  have h' : ('r' :: 'o' :: 'o' :: 'm' :: ':' :: r : GoStr) =
      ['a', 'l', 'l'] := h
  injection h' with h1 _
  exact absurd h1 (by decide)

theorem user_ne_all (u : GoStr) : gs "user:" ++ u ≠ gs "all" := by
  intro h
  have h' : ('u' :: 's' :: 'e' :: 'r' :: ':' :: u : GoStr) =
      ['a', 'l', 'l'] := h
  injection h' with h1 _
  exact absurd h1 (by decide)

theorem room_ne_user (r u : GoStr) : gs "room:" ++ r ≠ gs "user:" ++ u := by
  intro h
  have h' : ('r' :: 'o' :: 'o' :: 'm' :: ':' :: r : GoStr) =
      'u' :: 's' :: 'e' :: 'r' :: ':' :: u := h
  injection h' with h1 _
  exact absurd h1 (by decide)

theorem not_hasPref_room_of_user (u : GoStr) :
    hasPref (gs "room:") (gs "user:" ++ u) = false := by
  by_cases h : hasPref (gs "room:") (gs "user:" ++ u) = true
  · obtain ⟨t, ht⟩ := (hasPref_iff_exists _ _).mp h
    exact absurd ht.symm (room_ne_user t u)
  · exact Bool.not_eq_true _ ▸ (Bool.eq_false_iff.mpr (by exact fun hc => h hc))

theorem not_hasPref_user_of_room (r : GoStr) :
    hasPref (gs "user:") (gs "room:" ++ r) = false := by
  by_cases h : hasPref (gs "user:") (gs "room:" ++ r) = true
  · obtain ⟨t, ht⟩ := (hasPref_iff_exists _ _).mp h
    exact absurd ht (room_ne_user r t)
  · exact Bool.not_eq_true _ ▸ (Bool.eq_false_iff.mpr (by exact fun hc => h hc))

theorem not_hasPref_room_of_all :
    hasPref (gs "room:") (gs "all") = false := by decide

theorem not_hasPref_user_of_all :
    hasPref (gs "user:") (gs "all") = false := by decide

namespace NotifServer

theorem shouldReceive_iff (c : Client) (n : Notification) :
    shouldReceiveNotification c n = true ↔
      n.target = gs "all" ∨ n.target = gs "room:" ++ c.room ∨
        n.target = gs "user:" ++ c.username := by
  unfold shouldReceiveNotification
  by_cases h1 : n.target = gs "all"
  · simp [h1]
  · rw [if_neg h1]
    by_cases h2 : hasPref (gs "room:") n.target = true
    · rw [if_pos h2]
      obtain ⟨t, ht⟩ := (hasPref_iff_exists _ _).mp h2
      rw [ht, trimPref_append]
      constructor
      · intro hd
        have hrt : c.room = t := of_decide_eq_true hd
        exact Or.inr (Or.inl (by rw [hrt]))
      · rintro (hall | hroom | huser)
        · exact absurd hall (room_ne_all t)
        · have : t = c.room := List.append_cancel_left hroom
          exact decide_eq_true (this ▸ rfl)
        · exact absurd huser (room_ne_user t c.username)
    · rw [if_neg h2]
      by_cases h3 : hasPref (gs "user:") n.target = true
      · rw [if_pos h3]
        obtain ⟨t, ht⟩ := (hasPref_iff_exists _ _).mp h3
        rw [ht, trimPref_append]
        constructor
        · intro hd
          have hut : c.username = t := of_decide_eq_true hd
          exact Or.inr (Or.inr (by rw [hut]))
        · rintro (hall | hroom | huser)
          · exact absurd hall (user_ne_all t)
          · exact absurd hroom.symm (room_ne_user c.room t)
          · have : t = c.username := List.append_cancel_left huser
            exact decide_eq_true (this ▸ rfl)
      · rw [if_neg h3]
        constructor
        · intro hfalse
          exact Bool.noConfusion hfalse
        · rintro (hall | hroom | huser)
          · exact absurd hall h1
          · exact absurd (by rw [hroom]; exact hasPref_append _ _) h2
          · exact absurd (by rw [huser]; exact hasPref_append _ _) h3

theorem addToHistory_foldl (ns : List Notification) :
    List.foldl addToHistory [] ns = ns.drop (ns.length - 50) := by
  induction ns using List.reverseRecOn with
  | nil => rfl
  | append_singleton ms n ih =>
    rw [List.foldl_append, List.foldl_cons, List.foldl_nil, ih]
    unfold addToHistory
    by_cases hk : ms.length ≤ 49
    · have h1 : ms.length - 50 = 0 := by omega
      have h2 : (ms ++ [n]).length - 50 = 0 := by
        rw [List.length_append]
        simp only [List.length_singleton]
        omega
      have h3 : ¬ 50 < (ms.drop (ms.length - 50) ++ [n]).length := by
        rw [List.length_append, List.length_drop]
        simp only [List.length_singleton]
        omega
      rw [if_neg h3, h1, h2, List.drop_zero, List.drop_zero]
    · push_neg at hk
      have hlen : (ms.drop (ms.length - 50)).length = 50 := by
        rw [List.length_drop]
        omega
      have hcond : 50 < (ms.drop (ms.length - 50) ++ [n]).length := by
        rw [List.length_append, hlen]
        simp
      rw [if_pos hcond]
      have h2 : (ms.drop (ms.length - 50) ++ [n]).length - 50 = 1 := by
        rw [List.length_append, hlen]
        rfl
      rw [h2]
      have h4 : (ms ++ [n]).length - 50 = ms.length - 49 := by
        rw [List.length_append]
        simp only [List.length_singleton]
        omega
      rw [h4]
      rw [List.drop_append_of_le_length (by rw [hlen]; omega)]
      rw [List.drop_append_of_le_length (by omega)]
      rw [List.drop_drop]
      congr 2
      omega

theorem replayFold_effect (c : Client) (hist : List Notification)
    (chans : Nat → Chan)
    (hcap : (chans c.cid).buf.length +
        (hist.filter (fun n => shouldReceiveNotification c n)).length ≤
        (chans c.cid).cap) :
    (hist.foldl
        (fun ch n =>
          if shouldReceiveNotification c n then
            trySendSkip ch c.cid (Payload.notif n)
          else ch)
        chans) c.cid =
      { chans c.cid with
          buf := (chans c.cid).buf ++
            (hist.filter (fun n => shouldReceiveNotification c n)).map
              Payload.notif } := by
  induction hist generalizing chans with
  | nil => simp
  | cons n rest ih =>
    by_cases hs : shouldReceiveNotification c n = true
    · have hfl : (List.filter (fun n => shouldReceiveNotification c n) (n :: rest)).length =
          (List.filter (fun n => shouldReceiveNotification c n) rest).length + 1 := by
        simp [List.filter_cons, hs]
      have hspace : (chans c.cid).buf.length < (chans c.cid).cap := by
        omega
      have hstep : trySendSkip chans c.cid (Payload.notif n) =
          updF chans c.cid (chPush (chans c.cid) (Payload.notif n)) := by
        unfold trySendSkip
        simp [hspace]
      rw [List.foldl_cons, if_pos hs, hstep]
      have hcap2 :
          ((updF chans c.cid (chPush (chans c.cid) (Payload.notif n))) c.cid).buf.length +
            (rest.filter (fun n => shouldReceiveNotification c n)).length ≤
            ((updF chans c.cid (chPush (chans c.cid) (Payload.notif n))) c.cid).cap := by
        rw [updF_self]
        unfold chPush
        simp only [List.length_append, List.length_singleton]
        omega
      rw [ih _ hcap2, updF_self]
      unfold chPush
      simp [List.filter_cons, hs]
    · have hsf : shouldReceiveNotification c n = false :=
        Bool.eq_false_iff.mpr (fun hc => hs hc)
      rw [List.foldl_cons, if_neg (by rw [hsf]; exact Bool.noConfusion)]
      have hcap2 : (chans c.cid).buf.length +
          (rest.filter (fun n => shouldReceiveNotification c n)).length ≤
          (chans c.cid).cap := by
        have : (List.filter (fun n => shouldReceiveNotification c n) (n :: rest)).length =
            (List.filter (fun n => shouldReceiveNotification c n) rest).length := by
          simp [List.filter_cons, hsf]
        omega
      rw [ih _ hcap2]
      simp [List.filter_cons, hsf]

theorem replayFold_frame (c : Client) (hist : List Notification)
    (chans : Nat → Chan) (cid : Nat) (h : cid ≠ c.cid) :
    (hist.foldl
        (fun ch n =>
          if shouldReceiveNotification c n then
            trySendSkip ch c.cid (Payload.notif n)
          else ch)
        chans) cid = chans cid := by
  induction hist generalizing chans with
  | nil => rfl
  | cons n rest ih =>
    rw [List.foldl_cons]
    by_cases hs : shouldReceiveNotification c n = true
    · rw [if_pos hs, ih]
      exact trySendSkip_other chans c.cid (Payload.notif n) cid (Ne.symm h)
    · rw [if_neg hs, ih]

end NotifServer

namespace ChatStats

theorem sendAll_cons_space (c : Client) (rest : List Client)
    (chans : Nat → Chan) (p : Payload)
    (h : (chans c.cid).buf.length < (chans c.cid).cap) :
    sendAll (c :: rest) chans p =
      (c :: (sendAll rest (updF chans c.cid (chPush (chans c.cid) p)) p).1,
       (sendAll rest (updF chans c.cid (chPush (chans c.cid) p)) p).2.1,
       (sendAll rest (updF chans c.cid (chPush (chans c.cid) p)) p).2.2) := by
  rw [sendAll, if_pos h]

theorem sendAll_cons_full (c : Client) (rest : List Client)
    (chans : Nat → Chan) (p : Payload)
    (h : ¬ (chans c.cid).buf.length < (chans c.cid).cap) :
    sendAll (c :: rest) chans p =
      ((sendAll rest (updF chans c.cid { chans c.cid with closed := true }) p).1,
       (sendAll rest (updF chans c.cid { chans c.cid with closed := true }) p).2.1,
       (sendAll rest (updF chans c.cid { chans c.cid with closed := true }) p).2.2 + 1) := by
  rw [sendAll, if_neg h]

theorem sendAll_frame (mem : List Client) (chans : Nat → Chan) (p : Payload)
    (cid : Nat) (h : ∀ m ∈ mem, m.cid ≠ cid) :
    (sendAll mem chans p).2.1 cid = chans cid := by
  induction mem generalizing chans with
  | nil => rfl
  | cons a rest ih =>
    have hne := h a (by simp)
    by_cases hs : (chans a.cid).buf.length < (chans a.cid).cap
    · rw [sendAll_cons_space a rest chans p hs]
      rw [ih _ (fun m hm => h m (by simp [hm]))]
      exact updF_ne _ _ _ _ (Ne.symm hne)
    · rw [sendAll_cons_full a rest chans p hs]
      rw [ih _ (fun m hm => h m (by simp [hm]))]
      exact updF_ne _ _ _ _ (Ne.symm hne)

theorem sendAll_sub (mem : List Client) (chans : Nat → Chan) (p : Payload) :
    ∀ c ∈ (sendAll mem chans p).1, c ∈ mem := by
  induction mem generalizing chans with
  | nil => intro c hc; cases hc
  | cons a rest ih =>
    intro c hc
    by_cases hs : (chans a.cid).buf.length < (chans a.cid).cap
    · rw [sendAll_cons_space a rest chans p hs] at hc
      rcases List.mem_cons.mp hc with rfl | hcr
      · simp
      · exact List.mem_cons.mpr (Or.inr (ih _ c hcr))
    · rw [sendAll_cons_full a rest chans p hs] at hc
      exact List.mem_cons.mpr (Or.inr (ih _ c hc))

theorem sendAll_delivers (mem : List Client) (chans : Nat → Chan) (p : Payload)
    (c : Client) (hnd : (mem.map Client.cid).Nodup) (hc : c ∈ mem)
    (hspace : (chans c.cid).buf.length < (chans c.cid).cap) :
    c ∈ (sendAll mem chans p).1 ∧
      (sendAll mem chans p).2.1 c.cid = chPush (chans c.cid) p := by
  induction mem generalizing chans with
  | nil => cases hc
  | cons a rest ih =>
    simp only [List.map_cons, List.nodup_cons] at hnd
    rcases List.mem_cons.mp hc with rfl | hcr
    · rw [sendAll_cons_space c rest chans p hspace]
      have hframe : ∀ m ∈ rest, m.cid ≠ c.cid := by
        intro m hm hEq
        exact hnd.1 (hEq ▸ List.mem_map_of_mem Client.cid hm)
      refine ⟨by simp, ?_⟩
      rw [sendAll_frame rest _ p c.cid hframe, updF_self]
    · have hne : a.cid ≠ c.cid := by
        intro hEq
        exact hnd.1 (hEq ▸ List.mem_map_of_mem Client.cid hcr)
      by_cases hs : (chans a.cid).buf.length < (chans a.cid).cap
      · rw [sendAll_cons_space a rest chans p hs]
        have hsp2 : ((updF chans a.cid (chPush (chans a.cid) p)) c.cid).buf.length <
            ((updF chans a.cid (chPush (chans a.cid) p)) c.cid).cap := by
          rw [updF_ne _ _ _ _ (Ne.symm hne)]
          exact hspace
        obtain ⟨hmem, hpush⟩ := ih _ hnd.2 hcr hsp2
        refine ⟨List.mem_cons.mpr (Or.inr hmem), ?_⟩
        rw [hpush, updF_ne _ _ _ _ (Ne.symm hne)]
      · rw [sendAll_cons_full a rest chans p hs]
        have hsp2 : ((updF chans a.cid { chans a.cid with closed := true }) c.cid).buf.length <
            ((updF chans a.cid { chans a.cid with closed := true }) c.cid).cap := by
          rw [updF_ne _ _ _ _ (Ne.symm hne)]
          exact hspace
        obtain ⟨hmem, hpush⟩ := ih _ hnd.2 hcr hsp2
        refine ⟨hmem, ?_⟩
        rw [hpush, updF_ne _ _ _ _ (Ne.symm hne)]

theorem sendAll_evicts (mem : List Client) (chans : Nat → Chan) (p : Payload)
    (c : Client) (hnd : (mem.map Client.cid).Nodup) (hc : c ∈ mem)
    (hfull : ¬ (chans c.cid).buf.length < (chans c.cid).cap) :
    c ∉ (sendAll mem chans p).1 ∧
      (sendAll mem chans p).2.1 c.cid = { chans c.cid with closed := true } := by
  induction mem generalizing chans with
  | nil => cases hc
  | cons a rest ih =>
    simp only [List.map_cons, List.nodup_cons] at hnd
    rcases List.mem_cons.mp hc with rfl | hcr
    · rw [sendAll_cons_full c rest chans p hfull]
      have hframe : ∀ m ∈ rest, m.cid ≠ c.cid := by
        intro m hm hEq
        exact hnd.1 (hEq ▸ List.mem_map_of_mem Client.cid hm)
      constructor
      · intro hmem
        have hcr := sendAll_sub rest _ p c hmem
        exact hnd.1 (List.mem_map_of_mem Client.cid hcr)
      · rw [sendAll_frame rest _ p c.cid hframe, updF_self]
    · have hne : a.cid ≠ c.cid := by
        intro hEq
        exact hnd.1 (hEq ▸ List.mem_map_of_mem Client.cid hcr)
      have hcna : c ≠ a := by
        intro hEq
        exact hne (hEq ▸ rfl)
      by_cases hs : (chans a.cid).buf.length < (chans a.cid).cap
      · rw [sendAll_cons_space a rest chans p hs]
        have hf2 : ¬ ((updF chans a.cid (chPush (chans a.cid) p)) c.cid).buf.length <
            ((updF chans a.cid (chPush (chans a.cid) p)) c.cid).cap := by
          rw [updF_ne _ _ _ _ (Ne.symm hne)]
          exact hfull
        obtain ⟨hmem, hcl⟩ := ih _ hnd.2 hcr hf2
        constructor
        · intro hin
          rcases List.mem_cons.mp hin with hEq | hin2
          · exact hcna hEq
          · exact hmem hin2
        · rw [hcl, updF_ne _ _ _ _ (Ne.symm hne)]
      · rw [sendAll_cons_full a rest chans p hs]
        have hf2 : ¬ ((updF chans a.cid { chans a.cid with closed := true }) c.cid).buf.length <
            ((updF chans a.cid { chans a.cid with closed := true }) c.cid).cap := by
          rw [updF_ne _ _ _ _ (Ne.symm hne)]
          exact hfull
        obtain ⟨hmem, hcl⟩ := ih _ hnd.2 hcr hf2
        refine ⟨hmem, ?_⟩
        rw [hcl, updF_ne _ _ _ _ (Ne.symm hne)]

theorem sendAll_evict_zero_members (mem : List Client) (chans : Nat → Chan)
    (p : Payload) (hz : (sendAll mem chans p).2.2 = 0) :
    (sendAll mem chans p).1 = mem := by
  induction mem generalizing chans with
  | nil => rfl
  | cons a rest ih =>
    by_cases hs : (chans a.cid).buf.length < (chans a.cid).cap
    · rw [sendAll_cons_space a rest chans p hs] at hz ⊢
      rw [ih _ hz]
    · rw [sendAll_cons_full a rest chans p hs] at hz
      exact absurd hz (Nat.succ_ne_zero _)

theorem sendAll_evict_zero_closed (mem : List Client) (chans : Nat → Chan)
    (p : Payload) (hz : (sendAll mem chans p).2.2 = 0) (cid : Nat) :
    ((sendAll mem chans p).2.1 cid).closed = (chans cid).closed := by
  induction mem generalizing chans with
  | nil => rfl
  | cons a rest ih =>
    by_cases hs : (chans a.cid).buf.length < (chans a.cid).cap
    · rw [sendAll_cons_space a rest chans p hs] at hz ⊢
      rw [ih _ hz]
      by_cases hcid : cid = a.cid
      · subst hcid
        rw [updF_self]
        rfl
      · rw [updF_ne _ _ _ _ hcid]
    · rw [sendAll_cons_full a rest chans p hs] at hz
      exact absurd hz (Nat.succ_ne_zero _)

theorem sendAll_evict_zero_push (mem : List Client) (chans : Nat → Chan)
    (p : Payload) (c : Client) (hnd : (mem.map Client.cid).Nodup)
    (hz : (sendAll mem chans p).2.2 = 0) (hc : c ∈ mem) :
    (sendAll mem chans p).2.1 c.cid = chPush (chans c.cid) p := by
  induction mem generalizing chans with
  | nil => cases hc
  | cons a rest ih =>
    simp only [List.map_cons, List.nodup_cons] at hnd
    by_cases hs : (chans a.cid).buf.length < (chans a.cid).cap
    · rw [sendAll_cons_space a rest chans p hs] at hz ⊢
      rcases List.mem_cons.mp hc with rfl | hcr
      · have hframe : ∀ m ∈ rest, m.cid ≠ c.cid := by
          intro m hm hEq
          exact hnd.1 (hEq ▸ List.mem_map_of_mem Client.cid hm)
        rw [sendAll_frame rest _ p c.cid hframe, updF_self]
      · have hne : a.cid ≠ c.cid := by
          intro hEq
          exact hnd.1 (hEq ▸ List.mem_map_of_mem Client.cid hcr)
        rw [ih _ hnd.2 hz hcr, updF_ne _ _ _ _ (Ne.symm hne)]
    · rw [sendAll_cons_full a rest chans p hs] at hz
      exact absurd hz (Nat.succ_ne_zero _)

theorem broadcastToRoom_absent (h : Hub) (X : GoStr) (m : Message)
    (hl : lookupA h.rooms X = none) : broadcastToRoom h X m = h := by
  unfold broadcastToRoom
  rw [hl]

theorem broadcastToRoom_present (h : Hub) (X : GoStr) (m : Message)
    (mem : List Client) (hl : lookupA h.rooms X = some mem) :
    broadcastToRoom h X m =
      { rooms := updateA h.rooms X (sendAll mem h.chans (Payload.msg m)).1,
        chans := (sendAll mem h.chans (Payload.msg m)).2.1,
        evict := h.evict + (sendAll mem h.chans (Payload.msg m)).2.2 } := by
  unfold broadcastToRoom
  rw [hl]

theorem broadcastToRoom_evict_le (h : Hub) (X : GoStr) (m : Message) :
    h.evict ≤ (broadcastToRoom h X m).evict := by
  cases hl : lookupA h.rooms X with
  | none => rw [broadcastToRoom_absent h X m hl]
  | some mem =>
    rw [broadcastToRoom_present h X m mem hl]
    exact Nat.le_add_right _ _

theorem broadcastToRoom_lookup_presv (h : Hub) (X : GoStr) (m : Message)
    (hEq : (broadcastToRoom h X m).evict = h.evict) (r : GoStr) :
    lookupA (broadcastToRoom h X m).rooms r = lookupA h.rooms r := by
  cases hl : lookupA h.rooms X with
  | none => rw [broadcastToRoom_absent h X m hl]
  | some mem =>
    rw [broadcastToRoom_present h X m mem hl] at hEq ⊢
    simp only at hEq
    have hz : (sendAll mem h.chans (Payload.msg m)).2.2 = 0 := by omega
    rw [sendAll_evict_zero_members mem h.chans (Payload.msg m) hz]
    by_cases hr : r = X
    · subst hr
      rw [lookupA_updateA_self h.rooms r mem mem hl, hl]
    · exact lookupA_updateA_ne h.rooms X r mem hr

theorem broadcastToRoom_closed_presv (h : Hub) (X : GoStr) (m : Message)
    (hEq : (broadcastToRoom h X m).evict = h.evict) (cid : Nat) :
    ((broadcastToRoom h X m).chans cid).closed = (h.chans cid).closed := by
  cases hl : lookupA h.rooms X with
  | none => rw [broadcastToRoom_absent h X m hl]
  | some mem =>
    rw [broadcastToRoom_present h X m mem hl] at hEq ⊢
    simp only at hEq
    have hz : (sendAll mem h.chans (Payload.msg m)).2.2 = 0 := by omega
    exact sendAll_evict_zero_closed mem h.chans (Payload.msg m) hz cid

theorem broadcastToRoom_push (h : Hub) (X : GoStr) (m : Message)
    (mem : List Client) (hl : lookupA h.rooms X = some mem)
    (hnd : (mem.map Client.cid).Nodup)
    (hEq : (broadcastToRoom h X m).evict = h.evict) (c : Client) (hc : c ∈ mem) :
    (broadcastToRoom h X m).chans c.cid =
      chPush (h.chans c.cid) (Payload.msg m) := by
  rw [broadcastToRoom_present h X m mem hl] at hEq ⊢
  simp only at hEq
  have hz : (sendAll mem h.chans (Payload.msg m)).2.2 = 0 := by omega
  exact sendAll_evict_zero_push mem h.chans (Payload.msg m) c hnd hz hc

theorem broadcastToRoom_chans_frame (h : Hub) (X : GoStr) (m : Message)
    (cid : Nat)
    (hframe : ∀ mem, lookupA h.rooms X = some mem → ∀ mm ∈ mem, mm.cid ≠ cid) :
    (broadcastToRoom h X m).chans cid = h.chans cid := by
  cases hl : lookupA h.rooms X with
  | none => rw [broadcastToRoom_absent h X m hl]
  | some mem =>
    rw [broadcastToRoom_present h X m mem hl]
    exact sendAll_frame mem h.chans (Payload.msg m) cid (hframe mem hl)

theorem sendUserCountUpdate_absent (h : Hub) (X : GoStr) (now : GoStr)
    (hl : lookupA h.rooms X = none) : sendUserCountUpdate h X now = h := by
  unfold sendUserCountUpdate
  rw [hl]

theorem sendUserCountUpdate_present (h : Hub) (X : GoStr) (now : GoStr)
    (mem : List Client) (hl : lookupA h.rooms X = some mem) :
    sendUserCountUpdate h X now =
      broadcastToRoom h X (usersOnlineMsg X mem.length now) := by
  unfold sendUserCountUpdate
  rw [hl]

theorem sendUserCountUpdate_evict_le (h : Hub) (X : GoStr) (now : GoStr) :
    h.evict ≤ (sendUserCountUpdate h X now).evict := by
  cases hl : lookupA h.rooms X with
  | none => rw [sendUserCountUpdate_absent h X now hl]
  | some mem =>
    rw [sendUserCountUpdate_present h X now mem hl]
    exact broadcastToRoom_evict_le h X _

theorem sendUserCountUpdate_lookup_presv (h : Hub) (X : GoStr) (now : GoStr)
    (hEq : (sendUserCountUpdate h X now).evict = h.evict) (r : GoStr) :
    lookupA (sendUserCountUpdate h X now).rooms r = lookupA h.rooms r := by
  cases hl : lookupA h.rooms X with
  | none => rw [sendUserCountUpdate_absent h X now hl]
  | some mem =>
    rw [sendUserCountUpdate_present h X now mem hl] at hEq ⊢
    exact broadcastToRoom_lookup_presv h X _ hEq r

theorem sendUserCountUpdate_closed_presv (h : Hub) (X : GoStr) (now : GoStr)
    (hEq : (sendUserCountUpdate h X now).evict = h.evict) (cid : Nat) :
    ((sendUserCountUpdate h X now).chans cid).closed = (h.chans cid).closed := by
  cases hl : lookupA h.rooms X with
  | none => rw [sendUserCountUpdate_absent h X now hl]
  | some mem =>
    rw [sendUserCountUpdate_present h X now mem hl] at hEq ⊢
    exact broadcastToRoom_closed_presv h X _ hEq cid

theorem lookupA_cons_self {α : Type} (k : GoStr) (v : α)
    (l : List (GoStr × α)) : lookupA ((k, v) :: l) k = some v := by
  simp [lookupA]

theorem lookupA_cons_ne {α : Type} (k r : GoStr) (v : α)
    (l : List (GoStr × α)) (h : r ≠ k) :
    lookupA ((k, v) :: l) r = lookupA l r := by
  simp [lookupA, Ne.symm h]

theorem addClientToRoom_absent (h : Hub) (c : Client) (now : GoStr)
    (hl : lookupA h.rooms c.room = none) :
    addClientToRoom h c now =
      sendUserCountUpdate
        (broadcastToRoom { h with rooms := (c.room, [c]) :: h.rooms }
          c.room (joinedMsg c now))
        c.room now := by
  unfold addClientToRoom
  rw [hl]

theorem addClientToRoom_found (h : Hub) (c : Client) (now : GoStr)
    (mem : List Client) (hl : lookupA h.rooms c.room = some mem) :
    addClientToRoom h c now =
      sendUserCountUpdate
        (broadcastToRoom
          { h with rooms :=
              (updateA h.rooms c.room
                (if c ∈ mem then mem else mem ++ [c])) }
          c.room (joinedMsg c now))
        c.room now := by
  unfold addClientToRoom
  rw [hl]

theorem addClientToRoom_evict_le (h : Hub) (c : Client) (now : GoStr) :
    h.evict ≤ (addClientToRoom h c now).evict := by
  cases hl : lookupA h.rooms c.room with
  | none =>
    rw [addClientToRoom_absent h c now hl]
    calc h.evict
        = ({ h with rooms := (c.room, [c]) :: h.rooms } : Hub).evict := rfl
      _ ≤ _ := Nat.le_trans (broadcastToRoom_evict_le _ _ _)
          (sendUserCountUpdate_evict_le _ _ _)
  | some mem =>
    rw [addClientToRoom_found h c now mem hl]
    calc h.evict
        = ({ h with rooms :=
              (updateA h.rooms c.room
                (if c ∈ mem then mem else mem ++ [c])) } : Hub).evict := rfl
      _ ≤ _ := Nat.le_trans (broadcastToRoom_evict_le _ _ _)
          (sendUserCountUpdate_evict_le _ _ _)

theorem addClientToRoom_lookups (h : Hub) (c : Client) (now : GoStr)
    (hfree : (addClientToRoom h c now).evict = h.evict) :
    (∀ r, r ≠ c.room →
        lookupA (addClientToRoom h c now).rooms r = lookupA h.rooms r) ∧
      lookupA (addClientToRoom h c now).rooms c.room =
        some (match lookupA h.rooms c.room with
              | none => [c]
              | some mem => if c ∈ mem then mem else mem ++ [c]) := by
  cases hl : lookupA h.rooms c.room with
  | none =>
    rw [addClientToRoom_absent h c now hl] at hfree ⊢
    set h1 : Hub := { h with rooms := (c.room, [c]) :: h.rooms } with hh1
    set h2 := broadcastToRoom h1 c.room (joinedMsg c now) with hh2
    have le1 : h1.evict ≤ h2.evict := broadcastToRoom_evict_le _ _ _
    have le2 : h2.evict ≤ (sendUserCountUpdate h2 c.room now).evict :=
      sendUserCountUpdate_evict_le _ _ _
    have e1 : h1.evict = h.evict := rfl
    have e3 : (sendUserCountUpdate h2 c.room now).evict = h2.evict := by omega
    have e2 : h2.evict = h1.evict := by omega
    have pres : ∀ r, lookupA (sendUserCountUpdate h2 c.room now).rooms r =
        lookupA h1.rooms r := by
      intro r
      rw [sendUserCountUpdate_lookup_presv h2 c.room now e3 r]
      exact broadcastToRoom_lookup_presv h1 c.room _ e2 r
    constructor
    · intro r hr
      rw [pres r, hh1]
      exact lookupA_cons_ne c.room r [c] h.rooms hr
    · rw [pres c.room, hh1]
      exact lookupA_cons_self c.room [c] h.rooms
  | some mem =>
    rw [addClientToRoom_found h c now mem hl] at hfree ⊢
    set mem2 := if c ∈ mem then mem else mem ++ [c] with hmem2
    set h1 : Hub := { h with rooms := (updateA h.rooms c.room mem2) } with hh1
    set h2 := broadcastToRoom h1 c.room (joinedMsg c now) with hh2
    have le1 : h1.evict ≤ h2.evict := broadcastToRoom_evict_le _ _ _
    have le2 : h2.evict ≤ (sendUserCountUpdate h2 c.room now).evict :=
      sendUserCountUpdate_evict_le _ _ _
    have e1 : h1.evict = h.evict := rfl
    have e3 : (sendUserCountUpdate h2 c.room now).evict = h2.evict := by omega
    have e2 : h2.evict = h1.evict := by omega
    have pres : ∀ r, lookupA (sendUserCountUpdate h2 c.room now).rooms r =
        lookupA h1.rooms r := by
      intro r
      rw [sendUserCountUpdate_lookup_presv h2 c.room now e3 r]
      exact broadcastToRoom_lookup_presv h1 c.room _ e2 r
    constructor
    · intro r hr
      rw [pres r, hh1]
      exact lookupA_updateA_ne h.rooms c.room r mem2 hr
    · rw [pres c.room, hh1]
      exact lookupA_updateA_self h.rooms c.room mem2 mem hl

theorem removeClientFromRoom_absent (h : Hub) (c : Client) (now : GoStr)
    (hl : lookupA h.rooms c.room = none) :
    removeClientFromRoom h c now = h := by
  unfold removeClientFromRoom
  rw [hl]

theorem removeClientFromRoom_mem (h : Hub) (c : Client) (now : GoStr)
    (mem : List Client) (hl : lookupA h.rooms c.room = some mem)
    (hcm : c ∈ mem) :
    removeClientFromRoom h c now =
      (if (mem.erase c).length = 0 then
        { sendUserCountUpdate
            (broadcastToRoom
              { rooms := updateA h.rooms c.room (mem.erase c),
                chans := updF h.chans c.cid
                  { h.chans c.cid with closed := true },
                evict := h.evict }
              c.room (leftMsg c now))
            c.room now with
          rooms := removeA
            (sendUserCountUpdate
              (broadcastToRoom
                { rooms := updateA h.rooms c.room (mem.erase c),
                  chans := updF h.chans c.cid
                    { h.chans c.cid with closed := true },
                  evict := h.evict }
                c.room (leftMsg c now))
              c.room now).rooms c.room }
      else
        sendUserCountUpdate
          (broadcastToRoom
            { rooms := updateA h.rooms c.room (mem.erase c),
              chans := updF h.chans c.cid
                { h.chans c.cid with closed := true },
              evict := h.evict }
            c.room (leftMsg c now))
          c.room now) := by
  unfold removeClientFromRoom
  rw [hl]
  simp only [hcm, if_pos]

theorem removeClientFromRoom_notmem (h : Hub) (c : Client) (now : GoStr)
    (mem : List Client) (hl : lookupA h.rooms c.room = some mem)
    (hcm : c ∉ mem) :
    removeClientFromRoom h c now =
      (if mem.length = 0 then
        { sendUserCountUpdate
            (broadcastToRoom
              { rooms := updateA h.rooms c.room mem,
                chans := h.chans, evict := h.evict }
              c.room (leftMsg c now))
            c.room now with
          rooms := removeA
            (sendUserCountUpdate
              (broadcastToRoom
                { rooms := updateA h.rooms c.room mem,
                  chans := h.chans, evict := h.evict }
                c.room (leftMsg c now))
              c.room now).rooms c.room }
      else
        sendUserCountUpdate
          (broadcastToRoom
            { rooms := updateA h.rooms c.room mem,
              chans := h.chans, evict := h.evict }
            c.room (leftMsg c now))
          c.room now) := by
  unfold removeClientFromRoom
  rw [hl]
  simp only [hcm, if_neg, if_false]

theorem removeClientFromRoom_evict_le (h : Hub) (c : Client) (now : GoStr) :
    h.evict ≤ (removeClientFromRoom h c now).evict := by
  cases hl : lookupA h.rooms c.room with
  | none => rw [removeClientFromRoom_absent h c now hl]
  | some mem =>
    by_cases hcm : c ∈ mem
    · rw [removeClientFromRoom_mem h c now mem hl hcm]
      have hle : h.evict ≤
          (sendUserCountUpdate
            (broadcastToRoom
              { rooms := updateA h.rooms c.room (mem.erase c),
                chans := updF h.chans c.cid
                  { h.chans c.cid with closed := true },
                evict := h.evict }
              c.room (leftMsg c now))
            c.room now).evict :=
        Nat.le_trans
          (broadcastToRoom_evict_le
            { rooms := updateA h.rooms c.room (mem.erase c),
              chans := updF h.chans c.cid
                { h.chans c.cid with closed := true },
              evict := h.evict } c.room (leftMsg c now))
          (sendUserCountUpdate_evict_le _ _ _)
      by_cases hz : (mem.erase c).length = 0
      · rw [if_pos hz]
        exact hle
      · rw [if_neg hz]
        exact hle
    · rw [removeClientFromRoom_notmem h c now mem hl hcm]
      have hle : h.evict ≤
          (sendUserCountUpdate
            (broadcastToRoom
              { rooms := updateA h.rooms c.room mem,
                chans := h.chans, evict := h.evict }
              c.room (leftMsg c now))
            c.room now).evict :=
        Nat.le_trans
          (broadcastToRoom_evict_le
            { rooms := updateA h.rooms c.room mem,
              chans := h.chans, evict := h.evict } c.room (leftMsg c now))
          (sendUserCountUpdate_evict_le _ _ _)
      by_cases hz : mem.length = 0
      · rw [if_pos hz]
        exact hle
      · rw [if_neg hz]
        exact hle

theorem removeClientFromRoom_lookups_mem (h : Hub) (c : Client) (now : GoStr)
    (mem : List Client) (hl : lookupA h.rooms c.room = some mem)
    (hcm : c ∈ mem)
    (hfree : (removeClientFromRoom h c now).evict = h.evict) :
    (∀ r, r ≠ c.room →
        lookupA (removeClientFromRoom h c now).rooms r = lookupA h.rooms r) ∧
      lookupA (removeClientFromRoom h c now).rooms c.room =
        (if (mem.erase c).length = 0 then none else some (mem.erase c)) := by
  rw [removeClientFromRoom_mem h c now mem hl hcm] at hfree ⊢
  set h1 : Hub :=
    { rooms := updateA h.rooms c.room (mem.erase c),
      chans := updF h.chans c.cid { h.chans c.cid with closed := true },
      evict := h.evict } with hh1
  set h2 := broadcastToRoom h1 c.room (leftMsg c now) with hh2
  set h3 := sendUserCountUpdate h2 c.room now with hh3
  have le1 : h1.evict ≤ h2.evict := broadcastToRoom_evict_le _ _ _
  have le2 : h2.evict ≤ h3.evict := sendUserCountUpdate_evict_le _ _ _
  have e1 : h1.evict = h.evict := rfl
  have efree : h3.evict = h.evict := by
    by_cases hz : (mem.erase c).length = 0
    · rw [if_pos hz] at hfree
      exact hfree
    · rw [if_neg hz] at hfree
      exact hfree
  have e3 : h3.evict = h2.evict := by omega
  have e2 : h2.evict = h1.evict := by omega
  have pres : ∀ r, lookupA h3.rooms r = lookupA h1.rooms r := by
    intro r
    rw [sendUserCountUpdate_lookup_presv h2 c.room now e3 r]
    exact broadcastToRoom_lookup_presv h1 c.room _ e2 r
  by_cases hz : (mem.erase c).length = 0
  · rw [if_pos hz]
    constructor
    · intro r hr
      rw [lookupA_removeA_ne h3.rooms c.room r hr, pres r, hh1]
      exact lookupA_updateA_ne h.rooms c.room r (mem.erase c) hr
    · rw [if_pos hz]
      exact lookupA_removeA_self h3.rooms c.room
  · rw [if_neg hz]
    constructor
    · intro r hr
      rw [pres r, hh1]
      exact lookupA_updateA_ne h.rooms c.room r (mem.erase c) hr
    · rw [if_neg hz, pres c.room, hh1]
      exact lookupA_updateA_self h.rooms c.room (mem.erase c) mem hl

theorem removeClientFromRoom_notmem_effect (h : Hub) (c : Client) (now : GoStr)
    (mem : List Client) (hl : lookupA h.rooms c.room = some mem)
    (hcm : c ∉ mem) (hne : mem.length ≠ 0)
    (hnd : (mem.map Client.cid).Nodup)
    (hfree : (removeClientFromRoom h c now).evict = h.evict) :
    (∀ r, lookupA (removeClientFromRoom h c now).rooms r = lookupA h.rooms r) ∧
      (∀ cid, ((removeClientFromRoom h c now).chans cid).closed =
        (h.chans cid).closed) ∧
      (∀ m ∈ mem, (removeClientFromRoom h c now).chans m.cid =
        chPush (chPush (h.chans m.cid) (Payload.msg (leftMsg c now)))
          (Payload.msg (usersOnlineMsg c.room mem.length now))) := by
  rw [removeClientFromRoom_notmem h c now mem hl hcm, if_neg hne] at hfree ⊢
  set h1 : Hub :=
    { rooms := updateA h.rooms c.room mem,
      chans := h.chans, evict := h.evict } with hh1
  set h2 := broadcastToRoom h1 c.room (leftMsg c now) with hh2
  have le1 : h1.evict ≤ h2.evict := broadcastToRoom_evict_le _ _ _
  have le2 : h2.evict ≤ (sendUserCountUpdate h2 c.room now).evict :=
    sendUserCountUpdate_evict_le _ _ _
  have e1 : h1.evict = h.evict := rfl
  have e3 : (sendUserCountUpdate h2 c.room now).evict = h2.evict := by omega
  have e2 : h2.evict = h1.evict := by omega
  have hl1 : lookupA h1.rooms c.room = some mem := by
    rw [hh1]
    exact lookupA_updateA_self h.rooms c.room mem mem hl
  have hl2 : lookupA h2.rooms c.room = some mem := by
    rw [broadcastToRoom_lookup_presv h1 c.room _ e2 c.room]
    exact hl1
  have hsu : sendUserCountUpdate h2 c.room now =
      broadcastToRoom h2 c.room (usersOnlineMsg c.room mem.length now) :=
    sendUserCountUpdate_present h2 c.room now mem hl2
  refine ⟨?_, ?_, ?_⟩
  · intro r
    rw [sendUserCountUpdate_lookup_presv h2 c.room now e3 r,
      broadcastToRoom_lookup_presv h1 c.room _ e2 r, hh1]
    by_cases hr : r = c.room
    · subst hr
      rw [lookupA_updateA_self h.rooms c.room mem mem hl, hl]
    · exact lookupA_updateA_ne h.rooms c.room r mem hr
  · intro cid
    rw [sendUserCountUpdate_closed_presv h2 c.room now e3 cid,
      broadcastToRoom_closed_presv h1 c.room _ e2 cid]
  · intro m hm
    have hpush1 : h2.chans m.cid = chPush (h1.chans m.cid)
        (Payload.msg (leftMsg c now)) :=
      broadcastToRoom_push h1 c.room (leftMsg c now) mem hl1 hnd e2 m hm
    have e3' : (broadcastToRoom h2 c.room
        (usersOnlineMsg c.room mem.length now)).evict = h2.evict := by
      rw [← hsu]
      exact e3
    have hpush2 := broadcastToRoom_push h2 c.room
      (usersOnlineMsg c.room mem.length now) mem hl2 hnd e3' m hm
    rw [hsu, hpush2, hpush1]

theorem removeClientFromRoom_lookups_notmem (h : Hub) (c : Client)
    (now : GoStr) (mem : List Client)
    (hl : lookupA h.rooms c.room = some mem) (hcm : c ∉ mem)
    (hne : mem.length ≠ 0)
    (hfree : (removeClientFromRoom h c now).evict = h.evict) :
    ∀ r, lookupA (removeClientFromRoom h c now).rooms r = lookupA h.rooms r := by
  rw [removeClientFromRoom_notmem h c now mem hl hcm, if_neg hne] at hfree ⊢
  set h1 : Hub :=
    { rooms := updateA h.rooms c.room mem,
      chans := h.chans, evict := h.evict } with hh1
  set h2 := broadcastToRoom h1 c.room (leftMsg c now) with hh2
  have le1 : h1.evict ≤ h2.evict := broadcastToRoom_evict_le _ _ _
  have le2 : h2.evict ≤ (sendUserCountUpdate h2 c.room now).evict :=
    sendUserCountUpdate_evict_le _ _ _
  have e1 : h1.evict = h.evict := rfl
  have e3 : (sendUserCountUpdate h2 c.room now).evict = h2.evict := by omega
  have e2 : h2.evict = h1.evict := by omega
  intro r
  rw [sendUserCountUpdate_lookup_presv h2 c.room now e3 r,
    broadcastToRoom_lookup_presv h1 c.room _ e2 r, hh1]
  by_cases hr : r = c.room
  · subst hr
    rw [lookupA_updateA_self h.rooms c.room mem mem hl, hl]
  · exact lookupA_updateA_ne h.rooms c.room r mem hr

theorem applyOp_evict_le (h : Hub) (op : Op) :
    h.evict ≤ (applyOp h op).evict := by
  cases op with
  | register c now => exact addClientToRoom_evict_le h c now
  | unregister c now => exact removeClientFromRoom_evict_le h c now
  | publish room m => exact broadcastToRoom_evict_le h room m

theorem applyOps_evict_le (h : Hub) (ops : List Op) :
    h.evict ≤ (applyOps h ops).evict := by
  induction ops generalizing h with
  | nil => exact Nat.le_refl _
  | cons op rest ih =>
    exact Nat.le_trans (applyOp_evict_le h op) (ih (applyOp h op))

theorem applyOps_cons (h : Hub) (op : Op) (rest : List Op) :
    applyOps h (op :: rest) = applyOps (applyOp h op) rest := rfl

theorem goodRooms_step (h : Hub) (op : Op)
    (hfree : (applyOp h op).evict = h.evict) (hg : goodRooms h) :
    goodRooms (applyOp h op) := by
  cases op with
  | register c now =>
    simp only [applyOp] at hfree ⊢
    obtain ⟨hne, hself⟩ := addClientToRoom_lookups h c now hfree
    intro r mem' hr
    by_cases hrc : r = c.room
    · subst hrc
      rw [hself] at hr
      cases hl : lookupA h.rooms c.room with
      | none =>
        rw [hl] at hr
        simp only at hr
        have hx : [c] = mem' := Option.some.inj hr
        intro hE
        rw [← hx] at hE
        exact List.cons_ne_nil c [] hE
      | some mem =>
        rw [hl] at hr
        simp only at hr
        by_cases hcm : c ∈ mem
        · rw [if_pos hcm] at hr
          have hx : mem = mem' := Option.some.inj hr
          have := hg c.room mem hl
          rw [← hx]
          exact this
        · rw [if_neg hcm] at hr
          have hx : mem ++ [c] = mem' := Option.some.inj hr
          intro hE
          rw [← hx] at hE
          exact absurd (List.append_eq_nil.mp hE).2 (by simp)
    · rw [hne r hrc] at hr
      exact hg r mem' hr
  | unregister c now =>
    simp only [applyOp] at hfree ⊢
    cases hl : lookupA h.rooms c.room with
    | none =>
      rw [removeClientFromRoom_absent h c now hl]
      exact hg
    | some mem =>
      by_cases hcm : c ∈ mem
      · obtain ⟨hpres, hself⟩ :=
          removeClientFromRoom_lookups_mem h c now mem hl hcm hfree
        intro r mem' hr
        by_cases hrc : r = c.room
        · subst hrc
          rw [hself] at hr
          by_cases hz : (mem.erase c).length = 0
          · rw [if_pos hz] at hr
            cases hr
          · rw [if_neg hz] at hr
            intro hE
            apply hz
            rw [show mem.erase c = mem' from Option.some.inj hr, hE]
            rfl
        · rw [hpres r hrc] at hr
          exact hg r mem' hr
      · have hne : mem.length ≠ 0 := by
          intro hz
          exact hg c.room mem hl (List.length_eq_zero.mp hz)
        have hchain :=
          removeClientFromRoom_lookups_notmem h c now mem hl hcm hne hfree
        intro r mem' hr
        rw [hchain r] at hr
        exact hg r mem' hr
  | publish room m =>
    simp only [applyOp] at hfree ⊢
    intro r mem' hr
    rw [broadcastToRoom_lookup_presv h room m hfree r] at hr
    exact hg r mem' hr

theorem register_count_step (h : Hub) (c : Client) (now : GoStr)
    (hfree : (addClientToRoom h c now).evict = h.evict)
    (hv : ¬ memberOf h c) :
    roomCount (addClientToRoom h c now) c.room = roomCount h c.room + 1 ∧
      ∀ r, r ≠ c.room →
        roomCount (addClientToRoom h c now) r = roomCount h r := by
  obtain ⟨hne, hself⟩ := addClientToRoom_lookups h c now hfree
  constructor
  · unfold roomCount
    rw [hself]
    cases hl : lookupA h.rooms c.room with
    | none => simp
    | some mem =>
      have hcm : c ∉ mem := fun hc => hv ⟨mem, hl, hc⟩
      simp [hcm]
  · intro r hr
    unfold roomCount
    rw [hne r hr]

theorem unregister_count_step (h : Hub) (c : Client) (now : GoStr)
    (mem : List Client) (hl : lookupA h.rooms c.room = some mem)
    (hcm : c ∈ mem)
    (hfree : (removeClientFromRoom h c now).evict = h.evict) :
    roomCount (removeClientFromRoom h c now) c.room + 1 = roomCount h c.room ∧
      ∀ r, r ≠ c.room →
        roomCount (removeClientFromRoom h c now) r = roomCount h r := by
  obtain ⟨hpres, hself⟩ :=
    removeClientFromRoom_lookups_mem h c now mem hl hcm hfree
  have hlen : (mem.erase c).length = mem.length - 1 :=
    List.length_erase_of_mem hcm
  have hpos : 1 ≤ mem.length := List.length_pos_of_mem hcm
  constructor
  · unfold roomCount
    rw [hself, hl]
    by_cases hz : (mem.erase c).length = 0
    · rw [if_pos hz]
      simp only
      omega
    · rw [if_neg hz]
      simp only
      omega
  · intro r hr
    unfold roomCount
    rw [hpres r hr]

theorem publish_count_step (h : Hub) (room : GoStr) (m : Message)
    (hfree : (broadcastToRoom h room m).evict = h.evict) (r : GoStr) :
    roomCount (broadcastToRoom h room m) r = roomCount h r := by
  unfold roomCount
  rw [broadcastToRoom_lookup_presv h room m hfree r]

theorem roomCount_applyOps (ops : List Op) (h0 : Hub) (hv : ValidSeq h0 ops)
    (hfree : (applyOps h0 ops).evict = h0.evict) (r : GoStr) :
    roomCount (applyOps h0 ops) r + unregCount r ops =
      roomCount h0 r + regCount r ops := by
  induction ops generalizing h0 with
  | nil =>
    simp [applyOps, regCount, unregCount]
  | cons op rest ih =>
    have hv' : ValidStep h0 op ∧ ValidSeq (applyOp h0 op) rest := hv
    have le1 : h0.evict ≤ (applyOp h0 op).evict := applyOp_evict_le h0 op
    have le2 : (applyOp h0 op).evict ≤ (applyOps (applyOp h0 op) rest).evict :=
      applyOps_evict_le (applyOp h0 op) rest
    rw [applyOps_cons] at hfree
    have hstepfree : (applyOp h0 op).evict = h0.evict := by omega
    have hrestfree : (applyOps (applyOp h0 op) rest).evict =
        (applyOp h0 op).evict := by omega
    have ihh := ih (applyOp h0 op) hv'.2 hrestfree
    rw [applyOps_cons]
    cases op with
    | register c now =>
      simp only [applyOp] at hstepfree ihh ⊢
      obtain ⟨hselfc, hner⟩ := register_count_step h0 c now hstepfree hv'.1
      by_cases hrc : c.room = r
      · subst hrc
        simp only [regCount, unregCount]
        simp only [if_pos rfl, eq_self_iff_true, if_true]
        omega
      · simp only [regCount, unregCount, if_neg hrc]
        have := hner r (fun hE => hrc hE.symm)
        omega
    | unregister c now =>
      simp only [applyOp] at hstepfree ihh ⊢
      obtain ⟨mem, hl, hcm⟩ := hv'.1
      obtain ⟨hselfc, hner⟩ :=
        unregister_count_step h0 c now mem hl hcm hstepfree
      by_cases hrc : c.room = r
      · subst hrc
        simp only [regCount, unregCount]
        simp only [if_pos rfl, eq_self_iff_true, if_true]
        omega
      · simp only [regCount, unregCount, if_neg hrc]
        have := hner r (fun hE => hrc hE.symm)
        omega
    | publish room m =>
      simp only [applyOp] at hstepfree ihh ⊢
      have := publish_count_step h0 room m hstepfree r
      simp only [regCount, unregCount]
      omega

theorem goodRooms_applyOps (ops : List Op) (h0 : Hub) (hg : goodRooms h0)
    (hfree : (applyOps h0 ops).evict = h0.evict) :
    goodRooms (applyOps h0 ops) := by
  induction ops generalizing h0 with
  | nil => exact hg
  | cons op rest ih =>
    have le1 : h0.evict ≤ (applyOp h0 op).evict := applyOp_evict_le h0 op
    have le2 : (applyOp h0 op).evict ≤ (applyOps (applyOp h0 op) rest).evict :=
      applyOps_evict_le (applyOp h0 op) rest
    rw [applyOps_cons] at hfree
    have hstepfree : (applyOp h0 op).evict = h0.evict := by omega
    have hrestfree : (applyOps (applyOp h0 op) rest).evict =
        (applyOp h0 op).evict := by omega
    rw [applyOps_cons]
    exact ih (applyOp h0 op) (goodRooms_step h0 op hstepfree hg) hrestfree

end ChatStats

namespace BroadcastChat

theorem runUnregister_not_registered (s : BHub) (cid : Nat)
    (h : cid ∉ s.clients) : runUnregister s cid = s := by
  unfold runUnregister
  rw [if_neg h]

theorem bSend_cons_space (cid : Nat) (rest : List Nat) (chans : Nat → Chan)
    (p : Payload) (h : (chans cid).buf.length < (chans cid).cap) :
    bSend (cid :: rest) chans p =
      (cid :: (bSend rest (updF chans cid (chPush (chans cid) p)) p).1,
       (bSend rest (updF chans cid (chPush (chans cid) p)) p).2) := by
  rw [bSend, if_pos h]

theorem bSend_cons_full (cid : Nat) (rest : List Nat) (chans : Nat → Chan)
    (p : Payload) (h : ¬ (chans cid).buf.length < (chans cid).cap) :
    bSend (cid :: rest) chans p =
      ((bSend rest (updF chans cid { chans cid with closed := true }) p).1,
       (bSend rest (updF chans cid { chans cid with closed := true }) p).2) := by
  rw [bSend, if_neg h]

theorem bSend_frame (l : List Nat) (chans : Nat → Chan) (p : Payload)
    (cid : Nat) (h : ∀ m ∈ l, m ≠ cid) :
    (bSend l chans p).2 cid = chans cid := by
  induction l generalizing chans with
  | nil => rfl
  | cons a rest ih =>
    have hne := h a (by simp)
    by_cases hs : (chans a).buf.length < (chans a).cap
    · rw [bSend_cons_space a rest chans p hs]
      rw [ih _ (fun m hm => h m (by simp [hm]))]
      exact updF_ne _ _ _ _ (Ne.symm hne)
    · rw [bSend_cons_full a rest chans p hs]
      rw [ih _ (fun m hm => h m (by simp [hm]))]
      exact updF_ne _ _ _ _ (Ne.symm hne)

theorem bSend_sub (l : List Nat) (chans : Nat → Chan) (p : Payload) :
    ∀ cid ∈ (bSend l chans p).1, cid ∈ l := by
  induction l generalizing chans with
  | nil => intro cid hc; cases hc
  | cons a rest ih =>
    intro cid hc
    by_cases hs : (chans a).buf.length < (chans a).cap
    · rw [bSend_cons_space a rest chans p hs] at hc
      rcases List.mem_cons.mp hc with rfl | hcr
      · simp
      · exact List.mem_cons.mpr (Or.inr (ih _ cid hcr))
    · rw [bSend_cons_full a rest chans p hs] at hc
      exact List.mem_cons.mpr (Or.inr (ih _ cid hc))

theorem bSend_delivers (l : List Nat) (chans : Nat → Chan) (p : Payload)
    (cid : Nat) (hnd : l.Nodup) (hc : cid ∈ l)
    (hspace : (chans cid).buf.length < (chans cid).cap) :
    cid ∈ (bSend l chans p).1 ∧
      (bSend l chans p).2 cid = chPush (chans cid) p := by
  induction l generalizing chans with
  | nil => cases hc
  | cons a rest ih =>
    rw [List.nodup_cons] at hnd
    rcases List.mem_cons.mp hc with rfl | hcr
    · rw [bSend_cons_space cid rest chans p hspace]
      refine ⟨by simp, ?_⟩
      rw [bSend_frame rest _ p cid (fun m hm hE => hnd.1 (hE ▸ hm)), updF_self]
    · have hne : a ≠ cid := fun hE => hnd.1 (hE ▸ hcr)
      by_cases hs : (chans a).buf.length < (chans a).cap
      · rw [bSend_cons_space a rest chans p hs]
        have hsp2 : ((updF chans a (chPush (chans a) p)) cid).buf.length <
            ((updF chans a (chPush (chans a) p)) cid).cap := by
          rw [updF_ne _ _ _ _ (Ne.symm hne)]
          exact hspace
        obtain ⟨h1, h2⟩ := ih _ hnd.2 hcr hsp2
        exact ⟨List.mem_cons.mpr (Or.inr h1),
          by rw [h2, updF_ne _ _ _ _ (Ne.symm hne)]⟩
      · rw [bSend_cons_full a rest chans p hs]
        have hsp2 : ((updF chans a { chans a with closed := true }) cid).buf.length <
            ((updF chans a { chans a with closed := true }) cid).cap := by
          rw [updF_ne _ _ _ _ (Ne.symm hne)]
          exact hspace
        obtain ⟨h1, h2⟩ := ih _ hnd.2 hcr hsp2
        exact ⟨h1, by rw [h2, updF_ne _ _ _ _ (Ne.symm hne)]⟩

theorem bSend_evicts (l : List Nat) (chans : Nat → Chan) (p : Payload)
    (cid : Nat) (hnd : l.Nodup) (hc : cid ∈ l)
    (hfull : ¬ (chans cid).buf.length < (chans cid).cap) :
    cid ∉ (bSend l chans p).1 ∧
      (bSend l chans p).2 cid = { chans cid with closed := true } := by
  induction l generalizing chans with
  | nil => cases hc
  | cons a rest ih =>
    rw [List.nodup_cons] at hnd
    rcases List.mem_cons.mp hc with rfl | hcr
    · rw [bSend_cons_full cid rest chans p hfull]
      constructor
      · intro hmem
        exact hnd.1 (bSend_sub rest _ p cid hmem)
      · rw [bSend_frame rest _ p cid (fun m hm hE => hnd.1 (hE ▸ hm)), updF_self]
    · have hne : a ≠ cid := fun hE => hnd.1 (hE ▸ hcr)
      by_cases hs : (chans a).buf.length < (chans a).cap
      · rw [bSend_cons_space a rest chans p hs]
        have hf2 : ¬ ((updF chans a (chPush (chans a) p)) cid).buf.length <
            ((updF chans a (chPush (chans a) p)) cid).cap := by
          rw [updF_ne _ _ _ _ (Ne.symm hne)]
          exact hfull
        obtain ⟨h1, h2⟩ := ih _ hnd.2 hcr hf2
        constructor
        · intro hin
          rcases List.mem_cons.mp hin with hE | hin2
          · exact hne hE.symm
          · exact h1 hin2
        · rw [h2, updF_ne _ _ _ _ (Ne.symm hne)]
      · rw [bSend_cons_full a rest chans p hs]
        have hf2 : ¬ ((updF chans a { chans a with closed := true }) cid).buf.length <
            ((updF chans a { chans a with closed := true }) cid).cap := by
          rw [updF_ne _ _ _ _ (Ne.symm hne)]
          exact hfull
        obtain ⟨h1, h2⟩ := ih _ hnd.2 hcr hf2
        exact ⟨h1, by rw [h2, updF_ne _ _ _ _ (Ne.symm hne)]⟩

end BroadcastChat

theorem lookupA_setA_self {κ α : Type} [DecidableEq κ]
    (l : List (κ × α)) (k : κ) (v : α) :
    lookupA (setA l k v) k = some v := by
  unfold setA
  cases hl : lookupA l k with
  | none => simp [lookupA]
  | some w => exact lookupA_updateA_self l k v w hl

theorem lookupA_setA_ne {κ α : Type} [DecidableEq κ]
    (l : List (κ × α)) (k k' : κ) (v : α) (h : k' ≠ k) :
    lookupA (setA l k v) k' = lookupA l k' := by
  unfold setA
  cases hl : lookupA l k with
  | none => simp [lookupA, Ne.symm h]
  | some w => exact lookupA_updateA_ne l k k' v h

namespace NotifServer

theorem routeNotification_all (h : NotifHub) (n : Notification)
    (ht : n.target = gs "all") :
    routeNotification h n =
      { h with chans :=
          (sendRoomsFiltered (fun _ => true) h.rooms h.chans
            (Payload.notif n)) } := by
  unfold routeNotification
  rw [ht, if_pos rfl]

theorem routeNotification_room (h : NotifHub) (n : Notification) (X : GoStr)
    (ht : n.target = gs "room:" ++ X) :
    routeNotification h n =
      (match lookupA h.rooms X with
      | none => h
      | some mem =>
        { h with chans :=
            sendFiltered (fun _ => true) mem h.chans (Payload.notif n) }) := by
  unfold routeNotification
  rw [ht, if_neg (room_ne_all X), if_pos (hasPref_append (gs "room:") X),
    trimPref_append]

theorem routeNotification_user (h : NotifHub) (n : Notification) (u : GoStr)
    (ht : n.target = gs "user:" ++ u) :
    routeNotification h n =
      { h with chans :=
          (sendRoomsFiltered (fun c => decide (c.username = u))
            h.rooms h.chans (Payload.notif n)) } := by
  unfold routeNotification
  rw [ht, if_neg (user_ne_all u)]
  rw [if_neg (by rw [not_hasPref_room_of_user u]; exact Bool.noConfusion)]
  rw [if_pos (hasPref_append (gs "user:") u), trimPref_append]

end NotifServer

/-- C6: for every sequence of insertions into NotificationHistory the
length never exceeds 50, and eviction is FIFO: after inserting 51
notifications starting from the empty history, the stored history is
exactly the insertion sequence minus its first element (so the 1st
inserted notification is gone — in particular absent when the inserts are
distinct — and the 2nd inserted is the oldest remaining). -/
theorem c6_history_capacity_fifo :
    (∀ ns : List Notification,
      (List.foldl NotifServer.addToHistory [] ns).length ≤ 50) ∧
    (∀ ns : List Notification, ns.length = 51 →
      List.foldl NotifServer.addToHistory [] ns = ns.drop 1) ∧
    (∀ ns : List Notification, ns.length = 51 → ns.Nodup →
      ∀ x, ns.head? = some x →
        x ∉ List.foldl NotifServer.addToHistory [] ns) := by
  refine ⟨?_, ?_, ?_⟩
  · intro ns
    rw [NotifServer.addToHistory_foldl, List.length_drop]
    omega
  · intro ns h51
    rw [NotifServer.addToHistory_foldl, h51]
  · intro ns h51 hnd x hx
    rw [NotifServer.addToHistory_foldl, h51]
    cases ns with
    | nil => cases hx
    | cons a t =>
      have hax : a = x := by
        simp only [List.head?] at hx
        exact Option.some.inj hx
      subst hax
      rw [List.nodup_cons] at hnd
      simpa using hnd.1

/-- Witness for C6 at a concrete sequence of 51 distinct notifications. -/
theorem c6_witness :
    (List.foldl NotifServer.addToHistory [] c6ns).length ≤ 50 ∧
    List.foldl NotifServer.addToHistory [] c6ns = c6ns.drop 1 ∧
    (⟨gs "n", gs "info", [], [], 0, gs "all"⟩ : Notification) ∉
      List.foldl NotifServer.addToHistory [] c6ns :=
  ⟨c6_history_capacity_fifo.1 c6ns,
   c6_history_capacity_fifo.2.1 c6ns (by decide),
   c6_history_capacity_fifo.2.2 c6ns (by decide) (by decide) _ (by decide)⟩

/-- C8: history replay on register is filtered per target: a client
receives exactly the stored notifications whose target is literally
"all", "room:" followed by its own room, or "user:" followed by its own
username (given channel capacity for the replay, as the fresh 256-slot
channel of a new client always has); any other target shape passes the
filter for no client; and the replay writes to no other channel. -/
theorem c8_replay_filter :
    (∀ (c : Client) (n : Notification),
      NotifServer.shouldReceiveNotification c n = true ↔
        (n.target = gs "all" ∨ n.target = gs "room:" ++ c.room ∨
          n.target = gs "user:" ++ c.username)) ∧
    (∀ n : Notification, n.target ≠ gs "all" →
      (∀ t, n.target ≠ gs "room:" ++ t) → (∀ t, n.target ≠ gs "user:" ++ t) →
      ∀ c : Client, NotifServer.shouldReceiveNotification c n = false) ∧
    (∀ (h : NotifServer.NotifHub) (c : Client),
      (h.chans c.cid).buf.length +
          (h.notificationHistory.filter
            (fun n => NotifServer.shouldReceiveNotification c n)).length ≤
          (h.chans c.cid).cap →
      ((NotifServer.sendNotificationHistory h c).chans c.cid).buf =
        (h.chans c.cid).buf ++
          (h.notificationHistory.filter
            (fun n => NotifServer.shouldReceiveNotification c n)).map
            Payload.notif) ∧
    (∀ (h : NotifServer.NotifHub) (c : Client) (cid : Nat), cid ≠ c.cid →
      (NotifServer.sendNotificationHistory h c).chans cid = h.chans cid) := by
  refine ⟨NotifServer.shouldReceive_iff, ?_, ?_, ?_⟩
  · intro n hall hroom huser c
    by_cases hb : NotifServer.shouldReceiveNotification c n = true
    · rcases (NotifServer.shouldReceive_iff c n).mp hb with h1 | h2 | h3
      · exact absurd h1 hall
      · exact absurd h2 (hroom c.room)
      · exact absurd h3 (huser c.username)
    · exact Bool.eq_false_iff.mpr (fun hc => hb hc)
  · intro h c hcap
    have heff := NotifServer.replayFold_effect c h.notificationHistory h.chans hcap
    show ((h.notificationHistory.foldl
        (fun ch n =>
          if NotifServer.shouldReceiveNotification c n then
            trySendSkip ch c.cid (Payload.notif n)
          else ch)
        h.chans) c.cid).buf = _
    rw [heff]
  · intro h c cid hne
    exact NotifServer.replayFold_frame c h.notificationHistory h.chans cid hne

/-- Witness for C8: alice replays exactly the "all", own-room and
own-user notifications, in order, and the channel of an unrelated
connection id is untouched. -/
theorem c8_witness :
    (NotifServer.shouldReceiveNotification c8client
        ⟨gs "n6", gs "info", [], [], 6, gs "everyone"⟩ = true ↔
      (gs "everyone" = gs "all" ∨
        gs "everyone" = gs "room:" ++ c8client.room ∨
        gs "everyone" = gs "user:" ++ c8client.username)) ∧
    ((NotifServer.sendNotificationHistory c8hub c8client).chans c8client.cid).buf =
      [] ++ [Payload.notif ⟨gs "n1", gs "info", [], [], 1, gs "all"⟩,
        Payload.notif ⟨gs "n2", gs "info", [], [], 2, gs "room:general"⟩,
        Payload.notif ⟨gs "n4", gs "info", [], [], 4, gs "user:alice"⟩] ∧
    (NotifServer.sendNotificationHistory c8hub c8client).chans 12 =
      c8hub.chans 12 := by
  refine ⟨c8_replay_filter.1 c8client _, ?_, ?_⟩
  · have := c8_replay_filter.2.2.1 c8hub c8client (by decide)
    rw [this]
    decide
  · exact c8_replay_filter.2.2.2 c8hub c8client 12 (by decide)

/-- C9: `updateStatus` upserts the username's PresenceRecord with the
given status and the current timestamp, leaves every other username's
record unchanged, and no operation of the hybrid chat server ever deletes
a presence record. -/
theorem c9_presence_upsert :
    (∀ (s : HybridChat.HybridChatServer) (u st : GoStr) (now : Nat),
      lookupA (HybridChat.updateStatus s u st now).userStatuses u =
        some ⟨u, st, now⟩) ∧
    (∀ (s : HybridChat.HybridChatServer) (u st : GoStr) (now : Nat)
        (v : GoStr), v ≠ u →
      lookupA (HybridChat.updateStatus s u st now).userStatuses v =
        lookupA s.userStatuses v) ∧
    (∀ (s : HybridChat.HybridChatServer) (op : HybridChat.SOp) (v : GoStr)
        (rec : HybridChat.UserStatus),
      lookupA s.userStatuses v = some rec →
      ∃ rec', lookupA (HybridChat.applySOp s op).userStatuses v = some rec') := by
  refine ⟨?_, ?_, ?_⟩
  · intro s u st now
    exact lookupA_setA_self s.userStatuses u ⟨u, st, now⟩
  · intro s u st now v hv
    exact lookupA_setA_ne s.userStatuses u v ⟨u, st, now⟩ hv
  · intro s op v rec hl
    cases op with
    | addMessage u c now => exact ⟨rec, hl⟩
    | updateStatus u st now =>
      by_cases hv : v = u
      · subst hv
        exact ⟨⟨v, st, now⟩, lookupA_setA_self s.userStatuses v ⟨v, st, now⟩⟩
      · refine ⟨rec, ?_⟩
        rw [show (HybridChat.applySOp s (HybridChat.SOp.updateStatus u st now)).userStatuses =
          (setA s.userStatuses u ⟨u, st, now⟩) from rfl]
        rw [lookupA_setA_ne s.userStatuses u v ⟨u, st, now⟩ hv]
        exact hl
    | saveClientAddr u a => exact ⟨rec, hl⟩
    | addTCPClient conn u => exact ⟨rec, hl⟩
    | removeTCPClient conn => exact ⟨rec, hl⟩

/-- Witness for C9 at a concrete server state: alice's record is
upserted, bob's is untouched, and a removeTCPClient operation keeps
bob's record present. -/
theorem c9_witness :
    lookupA (HybridChat.updateStatus c9state (gs "alice") (gs "typing") 7).userStatuses
        (gs "alice") = some ⟨gs "alice", gs "typing", 7⟩ ∧
    lookupA (HybridChat.updateStatus c9state (gs "alice") (gs "typing") 7).userStatuses
        (gs "bob") = lookupA c9state.userStatuses (gs "bob") ∧
    (∃ rec', lookupA
        (HybridChat.applySOp c9state (HybridChat.SOp.removeTCPClient 1)).userStatuses
        (gs "bob") = some rec') :=
  ⟨c9_presence_upsert.1 c9state (gs "alice") (gs "typing") 7,
   c9_presence_upsert.2.1 c9state (gs "alice") (gs "typing") 7 (gs "bob") (by decide),
   c9_presence_upsert.2.2 c9state (HybridChat.SOp.removeTCPClient 1) (gs "bob")
     ⟨gs "bob", gs "away", 3⟩ (by decide)⟩

/-- C10: evaluating the code at the claimed `/history` paths.  The hybrid
chat server's `handleTCPClient` drops a `HISTORY:10` request on the floor
(state unchanged, zero writes), although the repository's own README
documents "/history <count> — Request message history" and "Provides
history on client request"; and the Lab8 `handleCommand` answers
"/history 10" with an "Unknown command" system `Message`, not a history
response.  This refutes the claim that a `/history <count>` request
yields a history response. -/
theorem c10_history_request_ignored :
    HybridChat.handleLine c10state (gs "nhan") (gs "HISTORY:10") 5 =
      (c10state, []) ∧
    ChatStats.handleCommand c10hub c10client (gs "/history 10") (gs "t") =
      [Payload.msg
        { mtype := gs "system", room := gs "general", username := [],
          text := gs "Unknown command: /history 10. Available: /users, /stats, /rooms",
          time := gs "t" }] := by
  constructor
  · decide
  · decide

/-- C1 counterexample: dave is a member of room "general" at the time a
notification targeted at `room:general` is routed, yet he is not
delivered to — his full outbound queue is silently skipped and stays
unchanged.  So the publish does not reach "exactly the members of the
room": a member with a full queue is missed. -/
theorem c1_counterexample :
    lookupA c1hub.rooms (gs "general") =
      some [⟨3, gs "dave", gs "general"⟩] ∧
    (NotifServer.routeNotification c1hub c1notif).chans 3 = c1hub.chans 3 ∧
    ((NotifServer.routeNotification c1hub c1notif).chans 3).buf.count
      (Payload.notif c1notif) = 0 := by
  decide

/-- C1 amended: a publish targeted at `room:X` reaches exactly the
members of X whose outbound queue has space at enqueue time — every such
member receives the payload, no channel outside X's member set is
written, the registry is untouched by notification routing — and when X
is absent from the registry the publish is a no-op.  The same holds for
`broadcastToRoom`, where additionally a delivered member stays in the
room. -/
theorem c1_amended_room_delivery :
    (∀ (h : NotifServer.NotifHub) (n : Notification) (X : GoStr),
      n.target = gs "room:" ++ X → lookupA h.rooms X = none →
        NotifServer.routeNotification h n = h) ∧
    (∀ (h : NotifServer.NotifHub) (n : Notification) (X : GoStr)
        (mem : List Client),
      n.target = gs "room:" ++ X → lookupA h.rooms X = some mem →
        ((mem.map Client.cid).Nodup →
          ∀ c ∈ mem, (h.chans c.cid).buf.length < (h.chans c.cid).cap →
            (NotifServer.routeNotification h n).chans c.cid =
              chPush (h.chans c.cid) (Payload.notif n)) ∧
        (∀ cid, (∀ m ∈ mem, m.cid ≠ cid) →
          (NotifServer.routeNotification h n).chans cid = h.chans cid) ∧
        (NotifServer.routeNotification h n).rooms = h.rooms) ∧
    (∀ (g : ChatStats.Hub) (X : GoStr) (m : Message),
      lookupA g.rooms X = none → ChatStats.broadcastToRoom g X m = g) ∧
    (∀ (g : ChatStats.Hub) (X : GoStr) (m : Message) (mem : List Client),
      lookupA g.rooms X = some mem →
        ((mem.map Client.cid).Nodup →
          ∀ c ∈ mem, (g.chans c.cid).buf.length < (g.chans c.cid).cap →
            (ChatStats.broadcastToRoom g X m).chans c.cid =
              chPush (g.chans c.cid) (Payload.msg m) ∧
            (∃ mem', lookupA (ChatStats.broadcastToRoom g X m).rooms X =
              some mem' ∧ c ∈ mem')) ∧
        (∀ cid, (∀ mm ∈ mem, mm.cid ≠ cid) →
          (ChatStats.broadcastToRoom g X m).chans cid = g.chans cid)) := by
  refine ⟨?_, ?_, ?_, ?_⟩
  · intro h n X ht hl
    rw [NotifServer.routeNotification_room h n X ht, hl]
  · intro h n X mem ht hl
    rw [NotifServer.routeNotification_room h n X ht, hl]
    refine ⟨?_, ?_, rfl⟩
    · intro hnd c hc hspace
      show sendFiltered (fun _ => true) mem h.chans (Payload.notif n) c.cid = _
      exact sendFiltered_delivers (fun _ => true) mem h.chans
        (Payload.notif n) c hnd hc rfl hspace
    · intro cid hcid
      show sendFiltered (fun _ => true) mem h.chans (Payload.notif n) cid = _
      exact sendFiltered_frame (fun _ => true) mem h.chans (Payload.notif n)
        cid (fun m hm _ => hcid m hm)
  · intro g X m hl
    exact ChatStats.broadcastToRoom_absent g X m hl
  · intro g X m mem hl
    constructor
    · intro hnd c hc hspace
      obtain ⟨hin, hpush⟩ := ChatStats.sendAll_delivers mem g.chans
        (Payload.msg m) c hnd hc hspace
      constructor
      · rw [ChatStats.broadcastToRoom_present g X m mem hl]
        exact hpush
      · refine ⟨(ChatStats.sendAll mem g.chans (Payload.msg m)).1, ?_, hin⟩
        rw [ChatStats.broadcastToRoom_present g X m mem hl]
        exact lookupA_updateA_self g.rooms X _ mem hl
    · intro cid hcid
      rw [ChatStats.broadcastToRoom_present g X m mem hl]
      exact ChatStats.sendAll_frame mem g.chans (Payload.msg m) cid hcid

/-- Witness for the amended C1 at concrete hubs: the member of "general"
with queue space receives the room-targeted notification, the client of
room "other" does not, a publish to an absent room is a no-op, and the
chat-server broadcast behaves alike. -/
theorem c1_amended_witness :
    NotifServer.routeNotification
        { rooms := [], chans := fun _ => ⟨8, [], false⟩,
          notificationHistory := [] } c1notif =
      { rooms := [], chans := fun _ => ⟨8, [], false⟩,
        notificationHistory := [] } ∧
    (NotifServer.routeNotification c1whub c1notif).chans 3 =
      chPush (c1whub.chans 3) (Payload.notif c1notif) ∧
    (NotifServer.routeNotification c1whub c1notif).chans 4 = c1whub.chans 4 ∧
    (NotifServer.routeNotification c1whub c1notif).rooms = c1whub.rooms ∧
    (ChatStats.broadcastToRoom c1ghub (gs "nosuch") c1chat = c1ghub) ∧
    (ChatStats.broadcastToRoom c1ghub (gs "general") c1chat).chans 3 =
      chPush (c1ghub.chans 3) (Payload.msg c1chat) := by
  have ht : c1notif.target = gs "room:" ++ gs "general" := by decide
  refine ⟨?_, ?_, ?_, ?_, ?_, ?_⟩
  · exact c1_amended_room_delivery.1 _ c1notif (gs "general") ht (by decide)
  · exact (c1_amended_room_delivery.2.1 c1whub c1notif (gs "general")
      [⟨3, gs "dave", gs "general"⟩] ht (by decide)).1 (by decide)
      ⟨3, gs "dave", gs "general"⟩ (by decide) (by decide)
  · exact (c1_amended_room_delivery.2.1 c1whub c1notif (gs "general")
      [⟨3, gs "dave", gs "general"⟩] ht (by decide)).2.1 4 (by decide)
  · exact (c1_amended_room_delivery.2.1 c1whub c1notif (gs "general")
      [⟨3, gs "dave", gs "general"⟩] ht (by decide)).2.2
  · exact c1_amended_room_delivery.2.2.1 c1ghub (gs "nosuch") c1chat (by decide)
  · exact ((c1_amended_room_delivery.2.2.2 c1ghub (gs "general") c1chat
      [⟨3, gs "dave", gs "general"⟩] (by decide)).1 (by decide)
      ⟨3, gs "dave", gs "general"⟩ (by decide) (by decide)).1

/-- C7: a publish targeted at `user:<name>` scans every room; a channel
changes only if it belongs to a client with that username in some room;
under the design assumption that at most one client carries a username
(one user in at most one room), at most one channel is written; and the
matching client with queue space, wherever its room sits in the
registry, does receive the notification. -/
theorem c7_user_target_delivery :
    ∀ (h : NotifServer.NotifHub) (n : Notification) (u : GoStr),
      n.target = gs "user:" ++ u →
      ((∀ cid,
          (∀ q ∈ h.rooms, ∀ m ∈ q.2, m.username = u → m.cid ≠ cid) →
          (NotifServer.routeNotification h n).chans cid = h.chans cid) ∧
       ((∀ q1 ∈ h.rooms, ∀ c1 ∈ q1.2, ∀ q2 ∈ h.rooms, ∀ c2 ∈ q2.2,
            c1.username = u → c2.username = u → c1 = c2) →
          ∀ cid1 cid2,
            (NotifServer.routeNotification h n).chans cid1 ≠ h.chans cid1 →
            (NotifServer.routeNotification h n).chans cid2 ≠ h.chans cid2 →
            cid1 = cid2) ∧
       ((allCids h.rooms).Nodup →
          ∀ nm mem, (nm, mem) ∈ h.rooms →
            ∀ c ∈ mem, c.username = u →
            (h.chans c.cid).buf.length < (h.chans c.cid).cap →
            (NotifServer.routeNotification h n).chans c.cid =
              chPush (h.chans c.cid) (Payload.notif n))) := by
  intro h n u ht
  rw [NotifServer.routeNotification_user h n u ht]
  have hframe : ∀ cid,
      (∀ q ∈ h.rooms, ∀ m ∈ q.2, m.username = u → m.cid ≠ cid) →
      sendRoomsFiltered (fun c => decide (c.username = u)) h.rooms h.chans
        (Payload.notif n) cid = h.chans cid := by
    intro cid hc
    apply sendRoomsFiltered_frame
    intro q hq m hm hcond
    exact hc q hq m hm (of_decide_eq_true hcond)
  refine ⟨hframe, ?_, ?_⟩
  · intro huniq cid1 cid2 hch1 hch2
    have hex : ∀ cid,
        sendRoomsFiltered (fun c => decide (c.username = u)) h.rooms h.chans
          (Payload.notif n) cid ≠ h.chans cid →
        ∃ (q : GoStr × List Client) (c : Client),
          q ∈ h.rooms ∧ c ∈ q.2 ∧ c.username = u ∧ c.cid = cid := by
      intro cid hch
      by_contra hno
      push_neg at hno
      exact hch (hframe cid (fun q hq m hm hu => hno q m hq hm hu))
    have hch1' : sendRoomsFiltered (fun c => decide (c.username = u))
        h.rooms h.chans (Payload.notif n) cid1 ≠ h.chans cid1 := hch1
    have hch2' : sendRoomsFiltered (fun c => decide (c.username = u))
        h.rooms h.chans (Payload.notif n) cid2 ≠ h.chans cid2 := hch2
    obtain ⟨q1, c1, hq1, hm1, hu1, hc1⟩ := hex cid1 hch1'
    obtain ⟨q2, c2, hq2, hm2, hu2, hc2⟩ := hex cid2 hch2'
    have : c1 = c2 := huniq q1 hq1 c1 hm1 q2 hq2 c2 hm2 hu1 hu2
    rw [← hc1, ← hc2, this]
  · intro hnd nm mem hq c hm hu hspace
    exact sendRoomsFiltered_delivers (fun c => decide (c.username = u))
      h.rooms h.chans (Payload.notif n) nm mem c hnd hq hm
      (decide_eq_true hu) hspace

/-- Witness for C7: a `user:erin` notification in a two-room hub is
delivered to erin (who sits in the second room scanned) and to no one
else; any two changed channels coincide. -/
theorem c7_witness :
    (NotifServer.routeNotification c7hub c7notif).chans 3 = c7hub.chans 3 ∧
    (NotifServer.routeNotification c7hub c7notif).chans 4 =
      chPush (c7hub.chans 4) (Payload.notif c7notif) ∧
    (∀ cid1 cid2,
      (NotifServer.routeNotification c7hub c7notif).chans cid1 ≠
        c7hub.chans cid1 →
      (NotifServer.routeNotification c7hub c7notif).chans cid2 ≠
        c7hub.chans cid2 →
      cid1 = cid2) := by
  have ht : c7notif.target = gs "user:" ++ gs "erin" := by decide
  refine ⟨?_, ?_, ?_⟩
  · exact (c7_user_target_delivery c7hub c7notif (gs "erin") ht).1 3
      (by decide)
  · exact (c7_user_target_delivery c7hub c7notif (gs "erin") ht).2.2
      (by decide) (gs "other") [⟨4, gs "erin", gs "other"⟩] (by decide)
      ⟨4, gs "erin", gs "other"⟩ (by decide) (by decide) (by decide)
  · exact (c7_user_target_delivery c7hub c7notif (gs "erin") ht).2.1
      (by decide)

/-- C2 counterexample: carol's outbound queue is full at enqueue time
when a notification is published, yet after `routeNotification` she is
still registered in her room and her queue is neither closed nor
changed — the notification path skips a slow consumer instead of
evicting it. -/
theorem c2_counterexample :
    (c2hub.chans 7).cap ≤ (c2hub.chans 7).buf.length ∧
    (NotifServer.routeNotification c2hub c2notif).rooms = c2hub.rooms ∧
    (NotifServer.routeNotification c2hub c2notif).chans 7 = c2hub.chans 7 ∧
    ((NotifServer.routeNotification c2hub c2notif).chans 7).closed = false := by
  decide

/-- C2 amended: the publisher never blocks in any path, and delivery to
the remaining targets always happens; but the full-queue target's fate
depends on the path.  On the broadcast paths (`Hub.run`'s broadcast case
and `broadcastToRoom`) the slow consumer's channel is closed and the
client is removed from the registry while others still receive.  On the
notification path (`routeNotification`) the slow consumer is only
skipped: the message is dropped for it, its channel stays open and it
stays registered, while others still receive. -/
theorem c2_amended_slow_consumer :
    (∀ (s : BroadcastChat.BHub) (p : Payload) (cid : Nat),
      s.clients.Nodup → cid ∈ s.clients →
      (¬ (s.chans cid).buf.length < (s.chans cid).cap →
        cid ∉ (BroadcastChat.runBroadcast s p).clients ∧
        ((BroadcastChat.runBroadcast s p).chans cid).closed = true) ∧
      ((s.chans cid).buf.length < (s.chans cid).cap →
        cid ∈ (BroadcastChat.runBroadcast s p).clients ∧
        ((BroadcastChat.runBroadcast s p).chans cid).buf =
          (s.chans cid).buf ++ [p])) ∧
    (∀ (g : ChatStats.Hub) (X : GoStr) (m : Message) (mem : List Client),
      lookupA g.rooms X = some mem → (mem.map Client.cid).Nodup →
      ∀ c ∈ mem,
      (¬ (g.chans c.cid).buf.length < (g.chans c.cid).cap →
        ((ChatStats.broadcastToRoom g X m).chans c.cid).closed = true ∧
        (∃ mem', lookupA (ChatStats.broadcastToRoom g X m).rooms X =
          some mem' ∧ c ∉ mem')) ∧
      ((g.chans c.cid).buf.length < (g.chans c.cid).cap →
        ((ChatStats.broadcastToRoom g X m).chans c.cid).buf =
          (g.chans c.cid).buf ++ [Payload.msg m])) ∧
    (∀ (h : NotifServer.NotifHub) (n : Notification),
      n.target = gs "all" →
      (NotifServer.routeNotification h n).rooms = h.rooms ∧
      ((allCids h.rooms).Nodup →
        ∀ nm mem, (nm, mem) ∈ h.rooms → ∀ c ∈ mem,
        (¬ (h.chans c.cid).buf.length < (h.chans c.cid).cap →
          (NotifServer.routeNotification h n).chans c.cid = h.chans c.cid) ∧
        ((h.chans c.cid).buf.length < (h.chans c.cid).cap →
          ((NotifServer.routeNotification h n).chans c.cid).buf =
            (h.chans c.cid).buf ++ [Payload.notif n]))) := by
  refine ⟨?_, ?_, ?_⟩
  · intro s p cid hnd hc
    constructor
    · intro hfull
      obtain ⟨h1, h2⟩ := BroadcastChat.bSend_evicts s.clients s.chans p cid
        hnd hc hfull
      exact ⟨h1, by rw [show (BroadcastChat.runBroadcast s p).chans cid =
        (BroadcastChat.bSend s.clients s.chans p).2 cid from rfl, h2]⟩
    · intro hspace
      obtain ⟨h1, h2⟩ := BroadcastChat.bSend_delivers s.clients s.chans p cid
        hnd hc hspace
      exact ⟨h1, by rw [show (BroadcastChat.runBroadcast s p).chans cid =
        (BroadcastChat.bSend s.clients s.chans p).2 cid from rfl, h2]; rfl⟩
  · intro g X m mem hl hnd c hc
    constructor
    · intro hfull
      obtain ⟨h1, h2⟩ := ChatStats.sendAll_evicts mem g.chans (Payload.msg m)
        c hnd hc hfull
      constructor
      · rw [ChatStats.broadcastToRoom_present g X m mem hl]
        show ((ChatStats.sendAll mem g.chans (Payload.msg m)).2.1 c.cid).closed = true
        rw [h2]
      · refine ⟨(ChatStats.sendAll mem g.chans (Payload.msg m)).1, ?_, h1⟩
        rw [ChatStats.broadcastToRoom_present g X m mem hl]
        exact lookupA_updateA_self g.rooms X _ mem hl
    · intro hspace
      obtain ⟨h1, h2⟩ := ChatStats.sendAll_delivers mem g.chans (Payload.msg m)
        c hnd hc hspace
      rw [ChatStats.broadcastToRoom_present g X m mem hl]
      show ((ChatStats.sendAll mem g.chans (Payload.msg m)).2.1 c.cid).buf = _
      rw [h2]
      rfl
  · intro h n ht
    rw [NotifServer.routeNotification_all h n ht]
    refine ⟨rfl, ?_⟩
    intro hnd nm mem hq c hc
    constructor
    · intro hfull
      exact sendRoomsFiltered_skips (fun _ => true) h.rooms h.chans
        (Payload.notif n) nm mem c hnd hq hc hfull
    · intro hspace
      show (sendRoomsFiltered (fun _ => true) h.rooms h.chans
        (Payload.notif n) c.cid).buf = _
      rw [sendRoomsFiltered_delivers (fun _ => true) h.rooms h.chans
        (Payload.notif n) nm mem c hnd hq hc rfl hspace]
      rfl

/-- Witness for the amended C2: in the broadcast hub, the full-queue
client 1 is evicted (closed and unregistered) while client 2 still
receives; in the notification hub, the full-queue client is skipped but
stays registered. -/
theorem c2_amended_witness :
    (1 ∉ (BroadcastChat.runBroadcast c2bhub c2gpay).clients ∧
      ((BroadcastChat.runBroadcast c2bhub c2gpay).chans 1).closed = true) ∧
    (2 ∈ (BroadcastChat.runBroadcast c2bhub c2gpay).clients ∧
      ((BroadcastChat.runBroadcast c2bhub c2gpay).chans 2).buf =
        (c2bhub.chans 2).buf ++ [c2gpay]) ∧
    (NotifServer.routeNotification c2hub c2notif).rooms = c2hub.rooms ∧
    (NotifServer.routeNotification c2hub c2notif).chans 7 = c2hub.chans 7 :=
  ⟨(c2_amended_slow_consumer.1 c2bhub c2gpay 1 (by decide) (by decide)).1
      (by decide),
   (c2_amended_slow_consumer.1 c2bhub c2gpay 2 (by decide) (by decide)).2
      (by decide),
   (c2_amended_slow_consumer.2.2 c2hub c2notif (by decide)).1,
   ((c2_amended_slow_consumer.2.2 c2hub c2notif (by decide)).2 (by decide)
      (gs "ops") [⟨7, gs "carol", gs "ops"⟩] (by decide)
      ⟨7, gs "carol", gs "ops"⟩ (by decide)).1 (by decide)⟩

/-- C3 counterexample: after registering bob (whose 2-slot queue fills
with the join and user-count broadcasts) and then publishing one chat
message to room "r", the broadcast evicts bob — the room's only member —
but the emptied room stays in the registry: it is present with member
count 0, refuting "present iff non-empty" after a register/publish
sequence. -/
theorem c3_counterexample :
    lookupA (ChatStats.applyOps c3hub0 c3ops).rooms (gs "r") = some [] ∧
    ChatStats.roomPresent (ChatStats.applyOps c3hub0 c3ops) (gs "r") = true ∧
    ChatStats.roomCount (ChatStats.applyOps c3hub0 c3ops) (gs "r") = 0 := by
  decide

/-- C3 amended: in eviction-free runs (no slow-consumer eviction fires
during any internal broadcast, witnessed by the ghost eviction counter
staying put) the invariant holds after any sequence of register,
unregister and publish operations: a room name is present in the
registry iff its member count is non-zero.  A broadcast eviction that
empties a room leaves the empty room behind, as the counterexample
shows. -/
theorem c3_amended_registry_invariant :
    ∀ (h0 : ChatStats.Hub) (ops : List ChatStats.Op),
      ChatStats.goodRooms h0 →
      (ChatStats.applyOps h0 ops).evict = h0.evict →
      ∀ r, ChatStats.roomPresent (ChatStats.applyOps h0 ops) r = true ↔
        ChatStats.roomCount (ChatStats.applyOps h0 ops) r ≠ 0 := by
  intro h0 ops hg hfree r
  have hgood := ChatStats.goodRooms_applyOps ops h0 hg hfree
  unfold ChatStats.roomPresent ChatStats.roomCount
  cases hl : lookupA (ChatStats.applyOps h0 ops).rooms r with
  | none => simp
  | some mem =>
    constructor
    · intro _ hE
      exact hgood r mem hl (List.length_eq_zero.mp hE)
    · intro _
      rfl

/-- Witness for the amended C3: with roomy queues the same
register-then-publish sequence keeps the invariant, and it holds for
every room name probed. -/
theorem c3_amended_witness :
    (ChatStats.roomPresent (ChatStats.applyOps c3whub0 c3ops) (gs "r") = true ↔
      ChatStats.roomCount (ChatStats.applyOps c3whub0 c3ops) (gs "r") ≠ 0) ∧
    (ChatStats.roomPresent (ChatStats.applyOps c3whub0 c3ops) (gs "s") = true ↔
      ChatStats.roomCount (ChatStats.applyOps c3whub0 c3ops) (gs "s") ≠ 0) :=
  ⟨c3_amended_registry_invariant c3whub0 c3ops
      (fun r mem hl => by simp [c3whub0, lookupA] at hl) (by decide) (gs "r"),
   c3_amended_registry_invariant c3whub0 c3ops
      (fun r mem hl => by simp [c3whub0, lookupA] at hl) (by decide) (gs "s")⟩

/-- C4 counterexample: a single register (N = 1, M = 0) of a client
whose 1-slot outbound queue fills during the join broadcast ends with
member count 0, not N − M = 1 — the user-count broadcast inside the
register operation evicts the just-joined slow consumer. -/
theorem c4_counterexample :
    ChatStats.regCount (gs "r") c4ops = 1 ∧
    ChatStats.unregCount (gs "r") c4ops = 0 ∧
    ChatStats.ValidSeq c4hub0 c4ops ∧
    ChatStats.roomCount (ChatStats.applyOps c4hub0 c4ops) (gs "r") = 0 := by
  refine ⟨by decide, by decide, ⟨?_, trivial⟩, by decide⟩
  rintro ⟨mem, hl, -⟩
  exact Option.noConfusion hl

/-- C4 amended: over any interleaving of registers of non-members and
unregisters of current members (with publishes allowed), as long as no
slow-consumer eviction fires during the run's internal broadcasts, the
member count of a room that started absent satisfies
count + M = N, i.e. count = N − M. -/
theorem c4_amended_join_leave_count :
    ∀ (h0 : ChatStats.Hub) (ops : List ChatStats.Op) (r : GoStr),
      ChatStats.ValidSeq h0 ops →
      (ChatStats.applyOps h0 ops).evict = h0.evict →
      lookupA h0.rooms r = none →
      ChatStats.roomCount (ChatStats.applyOps h0 ops) r +
          ChatStats.unregCount r ops = ChatStats.regCount r ops := by
  intro h0 ops r hv hfree hinit
  have := ChatStats.roomCount_applyOps ops h0 hv hfree r
  have h0c : ChatStats.roomCount h0 r = 0 := by
    unfold ChatStats.roomCount
    rw [hinit]
  omega

/-- Witness for the amended C4: two joins and one leave on room "r" with
roomy queues end with count 1 = N − M. -/
theorem c4_amended_witness :
    ChatStats.roomCount (ChatStats.applyOps c4whub0 c4wops) (gs "r") +
        ChatStats.unregCount (gs "r") c4wops =
      ChatStats.regCount (gs "r") c4wops :=
  c4_amended_join_leave_count c4whub0 c4wops (gs "r")
    ⟨fun hm => by
        rcases hm with ⟨mem, hl, -⟩
        exact Option.noConfusion hl,
      fun hm => by
        rcases hm with ⟨mem, hl, hmem⟩
        rw [show lookupA (ChatStats.applyOp c4whub0
            (ChatStats.Op.register c4wa (gs "t1"))).rooms c4wb.room =
          some [c4wa] from by decide] at hl
        cases Option.some.inj hl
        exact absurd hmem (by decide),
      ⟨⟨[c4wa, c4wb], by decide, by decide⟩, trivial⟩⟩
    (by decide) (by decide)

/-- C5 counterexample: unregistering alice twice in a row makes bob's
outbound queue contain the "alice left the room" system message twice —
the second unregister of the already-unregistered client re-broadcasts
the "left" message to the remaining members, refuting "emits no second
left broadcast". -/
theorem c5_counterexample :
    ((ChatStats.removeClientFromRoom
        (ChatStats.removeClientFromRoom c5hub c5a (gs "t")) c5a
        (gs "t")).chans 2).buf.count
      (Payload.msg (ChatStats.leftMsg c5a (gs "t"))) = 2 := by
  decide

/-- C5 amended: unregistering an already-unregistered client leaves the
room registry unchanged, closes no channel a second time and can never
drive a member count negative; when the client's room has been deleted
the call is a complete no-op, and in the roomless broadcast hub a second
unregister is always a complete no-op; but when the client's room still
exists with members, a duplicate "left" system broadcast (and a
user-count update) IS emitted to every remaining member. -/
theorem c5_amended_unregister_idempotence :
    (∀ (h : ChatStats.Hub) (c : Client) (now : GoStr),
      lookupA h.rooms c.room = none →
        ChatStats.removeClientFromRoom h c now = h) ∧
    (∀ (h : ChatStats.Hub) (c : Client) (now : GoStr) (mem : List Client),
      lookupA h.rooms c.room = some mem → c ∉ mem → mem.length ≠ 0 →
      (mem.map Client.cid).Nodup →
      (ChatStats.removeClientFromRoom h c now).evict = h.evict →
      ((∀ r, lookupA (ChatStats.removeClientFromRoom h c now).rooms r =
          lookupA h.rooms r) ∧
       (∀ cid, ((ChatStats.removeClientFromRoom h c now).chans cid).closed =
          (h.chans cid).closed) ∧
       (∀ m ∈ mem, (ChatStats.removeClientFromRoom h c now).chans m.cid =
          chPush
            (chPush (h.chans m.cid) (Payload.msg (ChatStats.leftMsg c now)))
            (Payload.msg
              (ChatStats.usersOnlineMsg c.room mem.length now))))) ∧
    (∀ (s : BroadcastChat.BHub) (cid : Nat), cid ∉ s.clients →
      BroadcastChat.runUnregister s cid = s) := by
  refine ⟨?_, ?_, ?_⟩
  · intro h c now hl
    exact ChatStats.removeClientFromRoom_absent h c now hl
  · intro h c now mem hl hcm hne hnd hfree
    exact ChatStats.removeClientFromRoom_notmem_effect h c now mem hl hcm
      hne hnd hfree
  · intro s cid hc
    exact BroadcastChat.runUnregister_not_registered s cid hc

/-- Witness for the amended C5: the second unregister of alice leaves
the registry as it was, bob's channel open, and appends the duplicate
"alice left" plus user-count messages to bob's queue; with the room
deleted the call is an identity; part_000's unregister of an unknown
client is an identity. -/
theorem c5_amended_witness :
    ChatStats.removeClientFromRoom c5nohub c5a (gs "t") = c5nohub ∧
    lookupA (ChatStats.removeClientFromRoom c5whub1 c5a (gs "t")).rooms
        (gs "r") = lookupA c5whub1.rooms (gs "r") ∧
    ((ChatStats.removeClientFromRoom c5whub1 c5a (gs "t")).chans 2).closed =
      (c5whub1.chans 2).closed ∧
    (ChatStats.removeClientFromRoom c5whub1 c5a (gs "t")).chans c5b.cid =
      chPush
        (chPush (c5whub1.chans c5b.cid)
          (Payload.msg (ChatStats.leftMsg c5a (gs "t"))))
        (Payload.msg (ChatStats.usersOnlineMsg c5a.room 1 (gs "t"))) ∧
    BroadcastChat.runUnregister c5bhub 9 = c5bhub := by
  have hmain := c5_amended_unregister_idempotence.2.1 c5whub1 c5a (gs "t")
    [c5b] (by decide) (by decide) (by decide) (by decide) (by decide)
  refine ⟨?_, ?_, ?_, ?_, ?_⟩
  · exact c5_amended_unregister_idempotence.1 c5nohub c5a (gs "t") (by decide)
  · exact hmain.1 (gs "r")
  · exact hmain.2.1 2
  · exact hmain.2.2 c5b (by decide)
  · exact c5_amended_unregister_idempotence.2.2 c5bhub 9 (by decide)
